import Mathlib

/-!
Verification of the goactors actor runtime core (khulnasoft/go-actors).

Shallow embedding of the Go source:
  * `src/actor/context.go` (second part): `process.Invoke`, `process.invokeMsg`,
    `process.Start`, `process.tryRestart`, `process.cleanup` are embedded as
    `invokeLoop` / `invokeMsg` / `exec` (a fuel-indexed interpreter over the
    mutually recursive calls Invoke / tryRestart / Start) and `cleanup`.
  * `src/actor/context.go` (first part): `Context.Respond` is embedded as
    `respond` over a send log standing for `Engine.Send`.
  * `src/remote/remote.proto` (second part, the Go inbox file): `Inbox.Send`,
    `Inbox.schedule`, `Inbox.process`, `Inbox.run`, `Inbox.Start`, `Inbox.Stop`
    are embedded as `Inbox.send` / `Inbox.schedule` / `Inbox.procRun` /
    `Inbox.runLoop` / `Inbox.startWith` / `Inbox.stop`.

Modelling conventions:
  * Machine integers (`int32` counters) are modelled as `Nat`; the restart
    counter and `MaxRestarts` are compared with `=` exactly as the source
    compares them with `==`; configurations are assumed non-negative, which
    `Nat` makes implicit.
  * A panic raised by user code inside `Receive` is modelled by a behavior
    function `Nat → Msg → Option PanicVal` (receiver generation and delivered
    message decide whether `Receive` panics, and with which value).  The two
    best-effort `Stopped` deliveries performed inside the recover handlers and
    the `Stopped` delivery inside `cleanup` are modelled as non-panicking: a
    panic there is not recovered by the source either (it would crash the
    goroutine or corrupt the teardown) and no claim is about that situation.
  * Wall-clock sleeping is modelled by recording the slept duration in a list.
  * Event broadcasting is modelled by recording events in a list.
  * The stale value of `context.sender` observed during lifecycle deliveries
    is not modelled (no claim observes it); envelope deliveries record the
    envelope's sender.
  * The process is modelled as a leaf, parentless process: the child-poisoning
    loop in `cleanup` runs zero iterations and the parent-map removal is a
    no-op.  No claim is about children.
-/

namespace GoActors

/-- Messages.  `user n` stands for an arbitrary user payload; `pill` is the
reserved `poisonPill{graceful, wg}` of the source (`wg` records whether a
wait group is attached); `initialized`, `started`, `stopped` are the lifecycle
messages of `src/unnamed/part_000`. -/
inductive Msg where
  | user (n : Nat)
  | pill (graceful : Bool) (wg : Bool)
  | initialized
  | started
  | stopped
deriving DecidableEq, Repr

/-- The value a user panic carries: either a `*InternalError` (matched by the
type assertion at the top of `tryRestart`) or any other value. -/
inductive PanicVal where
  | internalErr
  | other (n : Nat)
deriving DecidableEq, Repr

/-- `actor.Envelope`: message plus optional sender PID (PIDs are `Nat`). -/
structure Envelope where
  msg : Msg
  sender : Option Nat
deriving DecidableEq, Repr

/-- One invocation of the receiver's `Receive`, as observed by the receiver.
`gen` is the receiver generation (incremented at each `Producer()` call in
`Start`), `mw` records whether the call went through
`applyMiddleware(recv.Receive, p.Opts.Middleware...)`, and `env` records
whether the call delivered an inbox envelope (`invokeMsg`) as opposed to a
lifecycle message set by `Start` / `cleanup` / the recover handlers. -/
structure Delivery where
  gen : Nat
  msg : Msg
  sender : Option Nat
  mw : Bool
  env : Bool
deriving DecidableEq, Repr

/-- Events broadcast on the engine's event stream by the process code. -/
inductive Event where
  | actorInitialized
  | actorStarted
  | actorRestarted (restarts : Nat)
  | actorMaxRestartsExceeded
  | actorStopped
deriving DecidableEq, Repr

/-- Modelled from the spec: the `RestartPolicy` option
(`ImmediateRestart`, `FixedDelay`, `ExponentialBackoff`) of §4.3/§6.  The
option type itself does not appear under `src/`; the source `tryRestart`
(which is under `src/`) never consults any policy. -/
inductive RestartPolicy where
  | immediateRestart
  | fixedDelay
  | exponentialBackoff
deriving DecidableEq, Repr

/-- Modelled from the spec: the sleep §4.3 says `tryRestart` performs before a
counted restart, as dictated by the configured `RestartPolicy`:
no sleep for `ImmediateRestart`, `RestartDelay` for `FixedDelay`, and
`RestartDelay * 2^(restarts-1)` capped at a ceiling for `ExponentialBackoff`. -/
def specSleep (p : RestartPolicy) (delay restarts cap : Nat) : Nat :=
  match p with
  | .immediateRestart => 0
  | .fixedDelay => delay
  | .exponentialBackoff => min (delay * 2 ^ (restarts - 1)) cap

/-- The spawn options the embedded code reads, plus the receiver behavior.
`hasMw` models `len(p.Opts.Middleware) > 0`; `behavior g m` is `none` when
generation `g`'s `Receive` returns normally on message `m` and `some v` when
it panics with value `v`.  `policy` mirrors the spec's `RestartPolicy` option
(never read by the embedded source code). -/
structure Cfg where
  maxRestarts : Nat
  restartDelay : Nat
  hasMw : Bool
  policy : RestartPolicy
  behavior : Nat → Msg → Option PanicVal

/-- The observable state of one `process`.

`inboxOn` tracks the inbox status word: `true` while the status is
starting/idle/running, `false` while it is `stopped`.  `cleanup` stops the
inbox (`inboxOn := false`); the tail of `Start` calls `p.inbox.Start(p)`,
whose `CAS(stopped→starting)` makes the inbox live again — including after a
terminal cleanup that happened inside `Start`'s `mbuffer` replay, since a
panic recovered inside that inner `Invoke` lets `Start` resume normally.
`revived` records that this revival of a cleaned-up process's inbox has
happened at least once in the run. -/
structure ProcState where
  restarts : Nat := 0
  gen : Nat := 0
  mbuffer : List Envelope := []
  trace : List Delivery := []
  events : List Event := []
  sleeps : List Nat := []
  cleanedUp : Bool := false
  inboxOn : Bool := false
  revived : Bool := false
  inboxStopped : Bool := false
  removed : Bool := false
  wgDone : Bool := false
  inboxStarted : Bool := false
  stalled : Bool := false
deriving Repr

def initState : ProcState := {}

/-- Is a message the reserved poison pill?  (`msg.Msg.(poisonPill)`). -/
def Msg.isPill : Msg → Bool
  | .pill _ _ => true
  | _ => false

/-- Record one `Receive` invocation. -/
def pushDel (st : ProcState) (d : Delivery) : ProcState :=
  { st with trace := st.trace ++ [d] }

/-- The delivery `invokeMsg` performs for envelope `e` at generation `g`:
through the middleware chain iff middleware is configured
(`if len(p.Opts.Middleware) > 0`). -/
def envDel (cfg : Cfg) (g : Nat) (e : Envelope) : Delivery :=
  ⟨g, e.msg, e.sender, cfg.hasMw, true⟩

/-- A lifecycle delivery (message set by the process code itself). -/
def lifeDel (g : Nat) (m : Msg) (mw : Bool) : Delivery :=
  ⟨g, m, none, mw, false⟩

/-- `process.invokeMsg`: skip poison pills; otherwise set the context's
message and sender and invoke `Receive` (through middleware iff configured).
A panic inside `Receive` is returned as `.error` together with the state at
the moment of the panic (the delivery did happen). -/
def invokeMsg (cfg : Cfg) (st : ProcState) (e : Envelope) :
    Except (PanicVal × ProcState) ProcState :=
  match e.msg with
  | .pill _ _ => .ok st
  | m =>
    let st1 := pushDel st (envDel cfg st.gen e)
    match cfg.behavior st.gen m with
    | some v => .error (v, st1)
    | none => .ok st1

/-- The inner loop of the graceful-pill branch of `process.Invoke`
(`for _, m := range msgsToProcess { p.invokeMsg(m) }`). -/
def runRemainder (cfg : Cfg) : ProcState → List Envelope →
    Except (PanicVal × ProcState) ProcState
  | st, [] => .ok st
  | st, e :: es =>
    match invokeMsg cfg st e with
    | .ok st1 => runRemainder cfg st1 es
    | .error p => .error p

/-- `process.cleanup(wg)`: (leaf, parentless process) stop the inbox, remove
the PID from the registry, deliver `Stopped` once through middleware,
broadcast `ActorStoppedEvent`, and signal the wait group when present. -/
def cleanup (_cfg : Cfg) (st : ProcState) (wg : Bool) : ProcState :=
  let st1 := { st with inboxStopped := true, inboxOn := false, removed := true }
  let st2 := pushDel st1 (lifeDel st1.gen .stopped true)
  let st3 := { st2 with events := st2.events ++ [Event.actorStopped], cleanedUp := true }
  if wg then { st3 with wgDone := true } else st3

/-- Result of the loop body of `process.Invoke`: ran to completion, returned
after handling a poison pill (cleanup done), or panicked.  On a panic the
source's recover handler will buffer `msgs[nproc:]`; since `nproc` is
incremented at the top of the iteration processing `msgs[i]`, that slice is
`msgs[i+1:]`, which the loop returns as `buf`. -/
inductive LoopRes where
  | done (st : ProcState)
  | stop (st : ProcState)
  | panicked (st : ProcState) (v : PanicVal) (buf : List Envelope)

/-- The `for i := 0; i < len(msgs); i++` loop of `process.Invoke`.  At the
first poison pill (index `i`), `processed = i`, so the graceful branch
re-delivers `msgs[i:]` (pills are skipped by `invokeMsg`) and then calls
`cleanup(pill.wg)`; the non-graceful branch calls `cleanup(pill.wg)` at once.
A panic anywhere leaves `buf = msgs[i+1:]` because only the outer loop
increments `nproc`. -/
def invokeLoop (cfg : Cfg) : ProcState → List Envelope → LoopRes
  | st, [] => .done st
  | st, e :: es =>
    match e.msg with
    | .pill g wg =>
      if g then
        match runRemainder cfg st (e :: es) with
        | .ok st1 => .stop (cleanup cfg st1 wg)
        | .error (v, st1) => .panicked st1 v es
      else
        .stop (cleanup cfg st wg)
    | _ =>
      match invokeMsg cfg st e with
      | .ok st1 => invokeLoop cfg st1 es
      | .error (v, st1) => .panicked st1 v es

/-- The recover handler of `process.Invoke`: deliver `Stopped` by calling
`p.context.receiver.Receive` directly (no middleware), then set
`p.mbuffer = msgs[nproc:]`.  (`tryRestart` is called right after; `exec`
does that.) -/
def recoverFrom (st : ProcState) (buf : List Envelope) : ProcState :=
  { pushDel st (lifeDel st.gen .stopped false) with mbuffer := buf }

/-- The three mutually recursive entry points of the process code. -/
inductive Call where
  | invoke (msgs : List Envelope)
  | tryRestart (v : PanicVal)
  | start

/-- Fuel-indexed interpreter for the mutual recursion
`Invoke → tryRestart → Start → Invoke` of the source.  Each nested call
consumes one unit of fuel; exhausting the fuel marks the state `stalled`
(the worker goroutine never returned).

`.invoke msgs` is `process.Invoke(msgs)`;
`.tryRestart v` is `process.tryRestart(v)`;
`.start` is `process.Start()` (fresh receiver from `Producer()`, deliver
`Initialized` and `Started` through middleware, broadcast the two events,
replay a non-empty `mbuffer` through `Invoke` and clear it, start the inbox). -/
def exec (cfg : Cfg) : Nat → Call → ProcState → ProcState
  | 0, _, st => { st with stalled := true }
  | fuel + 1, .invoke msgs, st =>
    match invokeLoop cfg st msgs with
    | .done st1 => st1
    | .stop st1 => st1
    | .panicked st1 v buf => exec cfg fuel (.tryRestart v) (recoverFrom st1 buf)
  | fuel + 1, .tryRestart v, st =>
    match v with
    | .internalErr =>
      exec cfg fuel .start { st with sleeps := st.sleeps ++ [cfg.restartDelay] }
    | .other _n =>
      if st.restarts = cfg.maxRestarts then
        cleanup cfg { st with events := st.events ++ [Event.actorMaxRestartsExceeded] } false
      else
        exec cfg fuel .start
          { st with
            restarts := st.restarts + 1,
            events := st.events ++ [Event.actorRestarted (st.restarts + 1)],
            sleeps := st.sleeps ++ [cfg.restartDelay] }
  | fuel + 1, .start, st =>
    let g := st.gen + 1
    let st0 := { st with gen := g }
    let st1 := pushDel st0 (lifeDel g .initialized true)
    match cfg.behavior g .initialized with
    | some v => exec cfg fuel (.tryRestart v) (pushDel st1 (lifeDel g .stopped false))
    | none =>
      let st2 := { st1 with events := st1.events ++ [Event.actorInitialized] }
      let st3 := pushDel st2 (lifeDel g .started true)
      match cfg.behavior g .started with
      | some v => exec cfg fuel (.tryRestart v) (pushDel st3 (lifeDel g .stopped false))
      | none =>
        let st4 := { st3 with events := st3.events ++ [Event.actorStarted] }
        let st5 :=
          if st4.mbuffer.isEmpty then st4
          else { exec cfg fuel (.invoke st4.mbuffer) st4 with mbuffer := [] }
        { st5 with inboxStarted := true, inboxOn := true,
                   revived := st5.revived || st5.cleanedUp }

/-- Feed one inbox batch to `Invoke`.  A batch is delivered exactly while the
inbox status is not `stopped` (`inboxOn`) and the worker has not stalled.  In
particular batches ARE still fed after a terminal cleanup whenever the tail
of `Start` has revived the stopped inbox (the cleanup happened inside
`Start`'s `mbuffer` replay): the source's `Inbox.run` only checks the status
word, which `inbox.Start` has reset. -/
def stepBatch (cfg : Cfg) (fuel : Nat) (st : ProcState) (b : List Envelope) : ProcState :=
  if st.inboxOn && !st.stalled then exec cfg fuel (.invoke b) st else st

/-- A whole run of one spawned process: `Start`, then the inbox worker feeds
the given batches to `Invoke` in order. -/
def runProcess (cfg : Cfg) (fuel : Nat) (batches : List (List Envelope)) : ProcState :=
  batches.foldl (stepBatch cfg fuel) (exec cfg fuel Call.start initState)

/-! ### The inbox (`Inbox` in the Go file appended to `src/remote/remote.proto`)

The inbox's atomic status word and ring buffer are modelled as plain state;
each Go operation becomes a function on that state.  The consumer
(`in.proc.Invoke`) is a parameter `cons` giving the effect a batch delivery
has on the status word (the mock consumers of the tests call `Stop` from
inside `Invoke`, which is exactly a status write). -/

/-- The four values of `procStatus` (`stopped`, `starting`, `idle`,
`running`). -/
inductive IStatus where
  | stopped
  | starting
  | idle
  | running
deriving DecidableEq, Repr

/-- `defaultThroughput = 300`. -/
def defaultThroughput : Nat := 300

/-- `messageBatchSize = 1024 * 4`. -/
def messageBatchSize : Nat := 1024 * 4

/-- Observable state of one `Inbox`: the ring buffer contents, the status
word, how many times `scheduler.Schedule` was called, and the envelopes
handed to `proc.Invoke` (flattened, in order). -/
structure InboxSt where
  rb : List Envelope := []
  status : IStatus := .stopped
  submitted : Nat := 0
  delivered : List Envelope := []
deriving DecidableEq, Repr

namespace Inbox

/-- `rb.Push(msg)`. -/
def push (st : InboxSt) (e : Envelope) : InboxSt :=
  { st with rb := st.rb ++ [e] }

/-- `Inbox.schedule`: `CAS(idle→running)`; on success submit the worker to
the scheduler. -/
def schedule (st : InboxSt) : InboxSt :=
  if st.status = .idle then
    { st with status := .running, submitted := st.submitted + 1 }
  else st

/-- `Inbox.Send`: push to the ring buffer, then `schedule`. -/
def send (st : InboxSt) (e : Envelope) : InboxSt :=
  schedule (push st e)

/-- `rb.PopN(n)`: up to `n` items in FIFO order. -/
def popN (n : Nat) (st : InboxSt) : List Envelope × InboxSt :=
  (st.rb.take n, { st with rb := st.rb.drop n })

/-- `Inbox.run`: while the status is not `stopped`, yield to the scheduler
every `t+1` iterations (a no-op here), pop a batch, and hand it to
`cons` (`in.proc.Invoke`); return as soon as `PopN` yields no messages.
`cons msgs s` is the status word after the consumer ran on batch `msgs`
with status `s` (the consumer may call `Stop`). -/
def runLoop (cons : List Envelope → IStatus → IStatus) :
    InboxSt → Nat → Nat → InboxSt
  | st, i, t =>
    if st.status = .stopped then st
    else
      let i1 := if i > t then 1 else i + 1
      if h : (popN messageBatchSize st).1 = [] then st
      else
        runLoop cons
          { (popN messageBatchSize st).2 with
            delivered := st.delivered ++ (popN messageBatchSize st).1,
            status := cons ((popN messageBatchSize st).1) st.status } i1 t
  termination_by st _ _ => st.rb.length
  decreasing_by
    simp only [popN, List.length_drop]
    have hne : st.rb ≠ [] := by
      intro hnil
      apply h
      simp [popN, hnil]
    have hpos : 0 < st.rb.length := List.length_pos.mpr hne
    have hbs : 0 < messageBatchSize := by decide
    omega

/-- `Inbox.process`: `run`, then `CAS(running→idle)`. -/
def procRun (cons : List Envelope → IStatus → IStatus) (st : InboxSt) : InboxSt :=
  let st1 := runLoop cons st 0 defaultThroughput
  if st1.status = .running then { st1 with status := .idle } else st1

/-- `Inbox.Start`: `CAS(stopped→starting)`, store the consumer,
`Store(idle)`, then `schedule`. -/
def startWith (st : InboxSt) : InboxSt :=
  if st.status = .stopped then schedule { st with status := .idle } else st

/-- `Inbox.Stop`: `Store(stopped)`. -/
def stop (st : InboxSt) : InboxSt :=
  { st with status := .stopped }

end Inbox

/-! ### `Context.Respond` (`src/actor/context.go`, first part) -/

/-- The slice of a `Context` that `Respond` reads: the sender of the current
received message. -/
structure RContext where
  sender : Option Nat
deriving DecidableEq, Repr

/-- The engine effects `Respond` can have: messages handed to `Engine.Send`
(target PID and message) and warnings logged by `slog.Warn`. -/
structure EngineLog where
  sends : List (Nat × Msg) := []
  warns : Nat := 0
deriving DecidableEq, Repr

/-- `Engine.Send` as observed by `Respond`: record the (target, message)
pair.  (The engine itself is not under `src/`; routing beyond the call is
out of scope.) -/
def engineSend (log : EngineLog) (target : Nat) (m : Msg) : EngineLog :=
  { log with sends := log.sends ++ [(target, m)] }

/-- `Context.Respond`: when the context has no sender, log a warning and
return without sending; otherwise send the message to the sender. -/
def respond (c : RContext) (log : EngineLog) (m : Msg) : EngineLog :=
  match c.sender with
  | none => { log with warns := log.warns + 1 }
  | some s => engineSend log s m

/-! ### Trace predicates -/

/-- The deliveries observed by receiver generation `g`, in order. -/
def genDs (g : Nat) (tr : List Delivery) : List Delivery :=
  tr.filter (fun d => d.gen == g)

/-- Is this delivery the lifecycle `Started` message (as delivered by
`Start`, not a user-sent `Started{}` envelope)? -/
def isLifeStarted (d : Delivery) : Bool :=
  !d.env && (d.msg == Msg.started)

/-- No envelope is delivered before the lifecycle `Started`: scanning the
deliveries in order, a lifecycle `Started` must come before any envelope
delivery. -/
def noEnvBeforeStarted : List Delivery → Bool
  | [] => true
  | d :: ds =>
    if isLifeStarted d then true
    else if d.env then false
    else noEnvBeforeStarted ds

/-- Does the list contain the lifecycle `Started` delivery? -/
def hasStartedMark (ds : List Delivery) : Bool :=
  ds.any isLifeStarted

/-- Either empty, or the first delivery is the lifecycle `Initialized`. -/
def headInit (ds : List Delivery) : Bool :=
  match ds with
  | [] => true
  | d :: _ => !d.env && (d.msg == Msg.initialized)

/-- Nonempty, and the last delivery is the lifecycle `Stopped`. -/
def endsStopped (ds : List Delivery) : Bool :=
  match ds.getLast? with
  | some d => !d.env && (d.msg == Msg.stopped)
  | none => false

/-- The lifecycle ordering a receiver generation must observe:
`Initialized` first, and no user (envelope) message before `Started`. -/
def lifecycleOrdered (ds : List Delivery) : Bool :=
  headInit ds && noEnvBeforeStarted ds

/-- Number of `ActorMaxRestartsExceededEvent` broadcasts. -/
def countExceeded (evs : List Event) : Nat :=
  evs.countP (fun e => e == Event.actorMaxRestartsExceeded)

/-- Trace-shaped invariants of a process state: deliveries carry valid
generations; each generation observes `Initialized` first; as long as no
stopped inbox has been revived, no envelope is delivered before the
lifecycle `Started`; superseded generations observed `Stopped` last
(unconditionally: the recover handlers deliver `Stopped` before every
`tryRestart`); once the process is cleaned up and its inbox is not live,
every generation observed `Stopped` last; no poison pill is ever delivered;
and (when middleware is configured) the only deliveries bypassing the
middleware chain are the recover handlers' best-effort `Stopped`
deliveries. -/
structure TraceInv (cfg : Cfg) (st : ProcState) : Prop where
  genBounds : ∀ d ∈ st.trace, 1 ≤ d.gen ∧ d.gen ≤ st.gen
  headAll : ∀ g, headInit (genDs g st.trace) = true
  noEnvB : st.revived = false →
    ∀ g, noEnvBeforeStarted (genDs g st.trace) = true
  endedStopped : ∀ g, 1 ≤ g → g < st.gen → endsStopped (genDs g st.trace) = true
  cleanedStopped : st.cleanedUp = true → st.inboxOn = false →
    ∀ g, 1 ≤ g → g ≤ st.gen → endsStopped (genDs g st.trace) = true
  noPill : ∀ d ∈ st.trace, d.msg.isPill = false
  mwStopped : cfg.hasMw = true → ∀ d ∈ st.trace, d.mw = false →
    d.msg = Msg.stopped ∧ d.env = false

/-- Full invariant: trace shape plus the restart-counter bound. -/
structure Inv (cfg : Cfg) (st : ProcState) : Prop where
  tr : TraceInv cfg st
  restartsLe : st.restarts ≤ cfg.maxRestarts

/-- A cleaned-up state reached mid-run is a revived one: its inbox is live
again and the revival has been recorded. -/
def LiveOK (st : ProcState) : Prop :=
  st.cleanedUp = true → st.inboxOn = true ∧ st.revived = true

/-- Facts about the current receiver generation needed to deliver envelopes
to it: it exists, its `Initialized` has been delivered, and (unless a
revival has occurred) so has its lifecycle `Started`. -/
def CurOK (st : ProcState) : Prop :=
  1 ≤ st.gen ∧ genDs st.gen st.trace ≠ [] ∧
    (st.revived = false → hasStartedMark (genDs st.gen st.trace) = true)

/-- Facts every `exec` call re-establishes about its result state. -/
def PostOK (st : ProcState) : Prop :=
  (st.cleanedUp = true → st.inboxOn = true → st.revived = true) ∧
  (st.inboxOn = true → 1 ≤ st.gen) ∧
  (1 ≤ st.gen → genDs st.gen st.trace ≠ []) ∧
  (st.cleanedUp = false → st.stalled = false → st.revived = false →
    1 ≤ st.gen → hasStartedMark (genDs st.gen st.trace) = true)

/-- Postcondition of the `Invoke` loop, by outcome. -/
def LoopPost (cfg : Cfg) (st : ProcState) : LoopRes → Prop
  | .done st1 => Inv cfg st1 ∧ st1.gen = st.gen ∧
      st1.cleanedUp = st.cleanedUp ∧ st1.inboxOn = st.inboxOn ∧
      st1.revived = st.revived ∧ st1.stalled = st.stalled ∧
      genDs st1.gen st1.trace ≠ [] ∧
      (st1.revived = false → hasStartedMark (genDs st1.gen st1.trace) = true) ∧
      st1.events = st.events ∧ st1.restarts = st.restarts ∧
      st1.mbuffer = st.mbuffer
  | .stop st1 => Inv cfg st1 ∧ st1.cleanedUp = true ∧ st1.inboxOn = false ∧
      st1.gen = st.gen ∧ genDs st1.gen st1.trace ≠ []
  | .panicked st1 _ _ => Inv cfg st1 ∧ st1.gen = st.gen ∧
      st1.cleanedUp = st.cleanedUp ∧ st1.inboxOn = st.inboxOn ∧
      st1.revived = st.revived ∧ st1.stalled = st.stalled ∧
      genDs st1.gen st1.trace ≠ [] ∧
      (st1.revived = false → hasStartedMark (genDs st1.gen st1.trace) = true) ∧
      st1.events = st.events ∧ st1.restarts = st.restarts

/-- Precondition of each `exec` entry point. -/
def Pre (cfg : Cfg) : Call → ProcState → Prop
  | .invoke _, st => Inv cfg st ∧ LiveOK st ∧ CurOK st
  | .tryRestart _, st => Inv cfg st ∧ LiveOK st ∧ 1 ≤ st.gen ∧
      endsStopped (genDs st.gen st.trace) = true
  | .start, st => Inv cfg st ∧ LiveOK st ∧
      (st.gen = 0 ∨ endsStopped (genDs st.gen st.trace) = true) ∧
      (st.inboxOn = true → 1 ≤ st.gen)

/-! ### Concrete instances used by witnesses and counterexamples -/

/-- A user envelope with sender PID 7. -/
def uEnv (n : Nat) : Envelope := ⟨Msg.user n, some 7⟩

/-- Receiver that never panics; middleware configured; `MaxRestarts = 3`,
`RestartDelay = 500`. -/
def noPanicCfg : Cfg := ⟨3, 500, true, RestartPolicy.fixedDelay, fun _ _ => none⟩

/-- Receiver whose first generation panics on `user 2`; later generations
never panic. -/
def panicOnU2Cfg : Cfg :=
  ⟨3, 500, true, RestartPolicy.fixedDelay,
    fun g m => if g == 1 && m == Msg.user 2 then some (PanicVal.other 0) else none⟩

/-- Receiver whose first generation panics on `user 1`. -/
def panicOnU1Cfg : Cfg :=
  ⟨3, 500, true, RestartPolicy.fixedDelay,
    fun g m => if g == 1 && m == Msg.user 1 then some (PanicVal.other 0) else none⟩

/-- Receiver that always panics with an `InternalError`. -/
def internalCfg : Cfg :=
  ⟨3, 500, true, RestartPolicy.fixedDelay, fun _ _ => some PanicVal.internalErr⟩

/-- Never-panicking receiver configured with `ImmediateRestart`. -/
def immCfg : Cfg := ⟨3, 500, true, RestartPolicy.immediateRestart, fun _ _ => none⟩

/-- A process state whose receiver generation is 1 (as right after the first
`Start`), with an empty trace. -/
def gen1State : ProcState := { gen := 1 }

/-- Receiver that panics (not internally) on every user message of every
generation; `MaxRestarts = 1`. -/
def panicUsersCfg : Cfg :=
  ⟨1, 500, true, RestartPolicy.fixedDelay,
    fun _ m => match m with
      | .user _ => some (PanicVal.other 0)
      | _ => none⟩

/-- Receiver that panics on `user 1` and `user 2` only; `MaxRestarts = 1`. -/
def panicU12Cfg : Cfg :=
  ⟨1, 500, true, RestartPolicy.fixedDelay,
    fun _ m => if m == Msg.user 1 || m == Msg.user 2
      then some (PanicVal.other 0) else none⟩

/-! ### List-level helper lemmas about the trace predicates -/

theorem genDs_append (g : Nat) (a b : List Delivery) :
    genDs g (a ++ b) = genDs g a ++ genDs g b := by
  simp [genDs, List.filter_append]

theorem genDs_single_eq {d : Delivery} {g : Nat} (h : d.gen = g) :
    genDs g [d] = [d] := by
  simp [genDs, List.filter, h]

theorem genDs_single_ne {d : Delivery} {g : Nat} (h : d.gen ≠ g) :
    genDs g [d] = [] := by
  have : (d.gen == g) = false := beq_eq_false_iff_ne.mpr h
  simp [genDs, List.filter, this]

theorem genDs_nil_of_lt {tr : List Delivery} {n g : Nat}
    (hb : ∀ d ∈ tr, d.gen ≤ n) (hg : n < g) : genDs g tr = [] := by
  induction tr with
  | nil => rfl
  | cons d ds ih =>
    have hd : d.gen ≤ n := (hb d (by simp)).trans_eq rfl
    have hne : (d.gen == g) = false := by
      simp only [beq_eq_false_iff_ne, ne_eq]
      omega
    simp only [genDs, List.filter] at *
    rw [hne]
    exact ih (fun d' hd' => hb d' (by simp [hd']))

theorem noEnv_append_life {l m : List Delivery}
    (hl : noEnvBeforeStarted l = true) (hm : ∀ d ∈ m, d.env = false) :
    noEnvBeforeStarted (l ++ m) = true := by
  induction l with
  | nil =>
    simp only [List.nil_append]
    induction m with
    | nil => rfl
    | cons d ds ih =>
      have hd : d.env = false := hm d (by simp)
      by_cases hs : isLifeStarted d = true
      · simp [noEnvBeforeStarted, hs]
      · simp only [noEnvBeforeStarted, hs, if_false, hd, Bool.false_eq_true, if_neg]
        exact ih (fun d' hd' => hm d' (by simp [hd']))
  | cons d ds ih =>
    by_cases hs : isLifeStarted d = true
    · simp [noEnvBeforeStarted, hs]
    · by_cases he : d.env = true
      · simp [noEnvBeforeStarted, hs, he] at hl
      · simp only [Bool.not_eq_true] at he
        simp only [noEnvBeforeStarted, hs, if_false, he, Bool.false_eq_true, if_neg,
          List.cons_append] at *
        exact ih hl

theorem mark_nonempty {l : List Delivery} (h : hasStartedMark l = true) : l ≠ [] := by
  intro hnil
  simp [hasStartedMark, hnil] at h

theorem noEnv_append_of_mark {l m : List Delivery}
    (hmark : hasStartedMark l = true) (hl : noEnvBeforeStarted l = true) :
    noEnvBeforeStarted (l ++ m) = true := by
  induction l with
  | nil => exact absurd hmark (by simp [hasStartedMark])
  | cons d ds ih =>
    by_cases hs : isLifeStarted d = true
    · simp [noEnvBeforeStarted, hs]
    · by_cases he : d.env = true
      · simp [noEnvBeforeStarted, hs, he] at hl
      · simp only [Bool.not_eq_true] at he
        have hmark' : hasStartedMark ds = true := by
          simp only [hasStartedMark, List.any_cons, hs, Bool.false_or] at hmark
          exact hmark
        simp only [noEnvBeforeStarted, hs, if_false, he, Bool.false_eq_true, if_neg,
          List.cons_append] at *
        exact ih hmark' hl

theorem headInit_append_left {l : List Delivery} (m : List Delivery) (h : l ≠ []) :
    headInit (l ++ m) = headInit l := by
  cases l with
  | nil => exact absurd rfl h
  | cons d ds => rfl

theorem endsStopped_concat (l : List Delivery) (d : Delivery) :
    endsStopped (l ++ [d]) = (!d.env && (d.msg == Msg.stopped)) := by
  simp [endsStopped, List.getLast?_concat]

theorem endsStopped_nonempty {l : List Delivery} (h : endsStopped l = true) : l ≠ [] := by
  intro hnil
  simp [endsStopped, hnil] at h

theorem mark_append_left {l : List Delivery} (m : List Delivery)
    (h : hasStartedMark l = true) : hasStartedMark (l ++ m) = true := by
  simp only [hasStartedMark, List.any_append, Bool.or_eq_true]
  exact Or.inl h

theorem countExceeded_append (a b : List Event) :
    countExceeded (a ++ b) = countExceeded a + countExceeded b := by
  simp [countExceeded, List.countP_append]

/-! ### C10: `Context.Respond` -/

/-- Claim C10: for every Context whose current sender is nil, `Respond(msg)`
sends no message to any process and returns normally (only a warning is
logged); when the sender is non-nil, `Respond` sends `msg` to exactly that
sender. -/
theorem respond_sender_cases :
    (∀ (log : EngineLog) (m : Msg),
      (respond ⟨none⟩ log m).sends = log.sends ∧
      (respond ⟨none⟩ log m).warns = log.warns + 1) ∧
    (∀ (s : Nat) (log : EngineLog) (m : Msg),
      (respond ⟨some s⟩ log m).sends = log.sends ++ [(s, m)] ∧
      (respond ⟨some s⟩ log m).warns = log.warns) :=
  ⟨fun _ _ => ⟨rfl, rfl⟩, fun _ _ _ => ⟨rfl, rfl⟩⟩

/-! ### C6: the `InternalError` path of `tryRestart` -/

theorem internal_loop_pres : ∀ (fuel : Nat) (st : ProcState),
    ((exec internalCfg fuel Call.start st).restarts = st.restarts ∧
     (exec internalCfg fuel Call.start st).cleanedUp = st.cleanedUp ∧
     (exec internalCfg fuel Call.start st).events = st.events) ∧
    ((exec internalCfg fuel (Call.tryRestart PanicVal.internalErr) st).restarts = st.restarts ∧
     (exec internalCfg fuel (Call.tryRestart PanicVal.internalErr) st).cleanedUp = st.cleanedUp ∧
     (exec internalCfg fuel (Call.tryRestart PanicVal.internalErr) st).events = st.events) := by
  intro fuel
  induction fuel with
  | zero => exact fun st => ⟨⟨rfl, rfl, rfl⟩, ⟨rfl, rfl, rfl⟩⟩
  | succ f ih =>
    intro st
    refine ⟨?_, ?_⟩
    · have h := (ih (pushDel
        (pushDel { st with gen := st.gen + 1 } (lifeDel (st.gen + 1) Msg.initialized true))
        (lifeDel (st.gen + 1) Msg.stopped false))).2
      exact ⟨h.1, h.2.1, h.2.2⟩
    · have h := (ih { st with sleeps := st.sleeps ++ [internalCfg.restartDelay] }).1
      exact ⟨h.1, h.2.1, h.2.2⟩

/-- Claim C6: entering `tryRestart` with an `InternalError` panic value makes
the process sleep `RestartDelay` and call `Start` again, without incrementing
the restart counter and without broadcasting any restart event; this path
never triggers cleanup, no matter how many times it is taken (modelled by a
receiver that always panics with an `InternalError`: for every fuel bound the
restart counter, the cleanup flag and the broadcast events are unchanged). -/
theorem tryRestart_internal_no_count :
    (∀ (cfg : Cfg) (fuel : Nat) (st : ProcState),
      exec cfg (fuel + 1) (Call.tryRestart PanicVal.internalErr) st =
        exec cfg fuel Call.start { st with sleeps := st.sleeps ++ [cfg.restartDelay] }) ∧
    (∀ (fuel : Nat) (st : ProcState),
      (exec internalCfg fuel Call.start st).restarts = st.restarts ∧
      (exec internalCfg fuel Call.start st).cleanedUp = st.cleanedUp ∧
      (exec internalCfg fuel Call.start st).events = st.events ∧
      (exec internalCfg fuel (Call.tryRestart PanicVal.internalErr) st).cleanedUp
        = st.cleanedUp) :=
  ⟨fun _ _ _ => rfl,
   fun fuel st =>
    ⟨(internal_loop_pres fuel st).1.1, (internal_loop_pres fuel st).1.2.1,
     (internal_loop_pres fuel st).1.2.2, (internal_loop_pres fuel st).2.2.1⟩⟩

/-! ### C5: the restart sleep never consults a restart policy -/

theorem runRemainder_policy (mr rd : Nat) (hm : Bool) (p q : RestartPolicy)
    (beh : Nat → Msg → Option PanicVal) :
    ∀ (l : List Envelope) (st : ProcState),
      runRemainder ⟨mr, rd, hm, p, beh⟩ st l = runRemainder ⟨mr, rd, hm, q, beh⟩ st l := by
  intro l
  induction l with
  | nil => exact fun _ => rfl
  | cons e es ih =>
    intro st
    simp only [runRemainder]
    have he : invokeMsg ⟨mr, rd, hm, p, beh⟩ st e = invokeMsg ⟨mr, rd, hm, q, beh⟩ st e := rfl
    rw [he]
    cases invokeMsg ⟨mr, rd, hm, q, beh⟩ st e with
    | ok st1 => exact ih st1
    | error p => rfl

theorem invokeLoop_policy (mr rd : Nat) (hm : Bool) (p q : RestartPolicy)
    (beh : Nat → Msg → Option PanicVal) :
    ∀ (l : List Envelope) (st : ProcState),
      invokeLoop ⟨mr, rd, hm, p, beh⟩ st l = invokeLoop ⟨mr, rd, hm, q, beh⟩ st l := by
  intro l
  induction l with
  | nil => exact fun _ => rfl
  | cons e es ih =>
    intro st
    cases e with
    | mk m s =>
      cases m with
      | pill g w =>
        cases g with
        | true =>
          simp only [invokeLoop]
          rw [runRemainder_policy mr rd hm p q beh]
          cases runRemainder ⟨mr, rd, hm, q, beh⟩ st (⟨Msg.pill true w, s⟩ :: es) with
          | ok st1 => rfl
          | error pr => rfl
        | false => rfl
      | user n =>
        simp only [invokeLoop]
        have he : invokeMsg ⟨mr, rd, hm, p, beh⟩ st ⟨Msg.user n, s⟩ =
            invokeMsg ⟨mr, rd, hm, q, beh⟩ st ⟨Msg.user n, s⟩ := rfl
        rw [he]
        cases invokeMsg ⟨mr, rd, hm, q, beh⟩ st ⟨Msg.user n, s⟩ with
        | ok st1 => exact ih st1
        | error pr => rfl
      | initialized =>
        simp only [invokeLoop]
        have he : invokeMsg ⟨mr, rd, hm, p, beh⟩ st ⟨Msg.initialized, s⟩ =
            invokeMsg ⟨mr, rd, hm, q, beh⟩ st ⟨Msg.initialized, s⟩ := rfl
        rw [he]
        cases invokeMsg ⟨mr, rd, hm, q, beh⟩ st ⟨Msg.initialized, s⟩ with
        | ok st1 => exact ih st1
        | error pr => rfl
      | started =>
        simp only [invokeLoop]
        have he : invokeMsg ⟨mr, rd, hm, p, beh⟩ st ⟨Msg.started, s⟩ =
            invokeMsg ⟨mr, rd, hm, q, beh⟩ st ⟨Msg.started, s⟩ := rfl
        rw [he]
        cases invokeMsg ⟨mr, rd, hm, q, beh⟩ st ⟨Msg.started, s⟩ with
        | ok st1 => exact ih st1
        | error pr => rfl
      | stopped =>
        simp only [invokeLoop]
        have he : invokeMsg ⟨mr, rd, hm, p, beh⟩ st ⟨Msg.stopped, s⟩ =
            invokeMsg ⟨mr, rd, hm, q, beh⟩ st ⟨Msg.stopped, s⟩ := rfl
        rw [he]
        cases invokeMsg ⟨mr, rd, hm, q, beh⟩ st ⟨Msg.stopped, s⟩ with
        | ok st1 => exact ih st1
        | error pr => rfl

theorem exec_policy (mr rd : Nat) (hm : Bool) (p q : RestartPolicy)
    (beh : Nat → Msg → Option PanicVal) :
    ∀ (f : Nat) (c : Call) (st : ProcState),
      exec ⟨mr, rd, hm, p, beh⟩ f c st = exec ⟨mr, rd, hm, q, beh⟩ f c st := by
  intro f
  induction f with
  | zero => exact fun _ _ => rfl
  | succ f ih =>
    intro c st
    cases c with
    | invoke msgs =>
      simp only [exec]
      rw [invokeLoop_policy mr rd hm p q beh]
      cases invokeLoop ⟨mr, rd, hm, q, beh⟩ st msgs with
      | done st1 => rfl
      | stop st1 => rfl
      | panicked st1 v buf => exact ih _ _
    | tryRestart v =>
      cases v with
      | internalErr =>
        simp only [exec]
        exact ih _ _
      | other n =>
        simp only [exec]
        by_cases h : st.restarts = mr
        · rw [if_pos h, if_pos h]
          rfl
        · rw [if_neg h, if_neg h]
          exact ih _ _
    | start =>
      simp only [exec]
      cases hb : beh (st.gen + 1) Msg.initialized with
      | some v => exact ih _ _
      | none =>
        cases hb2 : beh (st.gen + 1) Msg.started with
        | some v => exact ih _ _
        | none =>
          by_cases hmb :
              (pushDel { pushDel { st with gen := st.gen + 1 }
                  (lifeDel (st.gen + 1) Msg.initialized true) with
                events := (pushDel { st with gen := st.gen + 1 }
                  (lifeDel (st.gen + 1) Msg.initialized true)).events
                    ++ [Event.actorInitialized] }
                (lifeDel (st.gen + 1) Msg.started true)).mbuffer.isEmpty = true
          · rw [if_pos hmb, if_pos hmb]
          · rw [if_neg hmb, if_neg hmb, ih _ _]

/-- Counterexample to claim C5: with the `ImmediateRestart` policy configured,
the spec's sleep is 0, but on a counted restart `tryRestart` still sleeps
`RestartDelay = 500` (the source sleeps `p.Opts.RestartDelay`
unconditionally; no policy dispatch exists). -/
theorem tryRestart_ignores_policy_cex :
    immCfg.policy = RestartPolicy.immediateRestart ∧
    (exec immCfg 1 (Call.tryRestart (PanicVal.other 0)) initState).sleeps = [500] ∧
    specSleep RestartPolicy.immediateRestart 500 1 1000000 = 0 ∧ (500 : Nat) ≠ 0 := by
  exact ⟨rfl, by decide, rfl, by decide⟩

/-- Claim C5 amended: in `tryRestart`, before calling `Start` again after a
counted restart the process always sleeps exactly `RestartDelay` (the
`InternalError` path also sleeps `RestartDelay`); the configured
`RestartPolicy` is never consulted — the whole process semantics is
independent of it. -/
theorem tryRestart_sleep_always_delay (cfg : Cfg) (fuel n : Nat) (st : ProcState)
    (h : st.restarts ≠ cfg.maxRestarts) :
    (exec cfg (fuel + 1) (Call.tryRestart (PanicVal.other n)) st =
      exec cfg fuel Call.start
        { st with restarts := st.restarts + 1,
                  events := st.events ++ [Event.actorRestarted (st.restarts + 1)],
                  sleeps := st.sleeps ++ [cfg.restartDelay] }) ∧
    (exec cfg (fuel + 1) (Call.tryRestart PanicVal.internalErr) st =
      exec cfg fuel Call.start { st with sleeps := st.sleeps ++ [cfg.restartDelay] }) ∧
    (∀ (p q : RestartPolicy) (beh : Nat → Msg → Option PanicVal)
        (mr rd : Nat) (hm : Bool) (f : Nat) (c : Call) (st' : ProcState),
      exec ⟨mr, rd, hm, p, beh⟩ f c st' = exec ⟨mr, rd, hm, q, beh⟩ f c st') := by
  refine ⟨?_, rfl, fun p q beh mr rd hm f c st' => exec_policy mr rd hm p q beh f c st'⟩
  simp only [exec]
  rw [if_neg h]

/-- Witness for the amended C5 theorem at a concrete input. -/
theorem tryRestart_sleep_always_delay_witness :
    (initState.restarts ≠ noPanicCfg.maxRestarts) ∧
    (exec noPanicCfg 1 (Call.tryRestart (PanicVal.other 0)) initState =
      exec noPanicCfg 0 Call.start
        { initState with restarts := 1,
                         events := [Event.actorRestarted 1],
                         sleeps := [500] }) := by
  have h : initState.restarts ≠ noPanicCfg.maxRestarts := by decide
  exact ⟨h, (tryRestart_sleep_always_delay noPanicCfg 0 0 initState h).1⟩

/-! ### C7: the inbox state machine -/

theorem take_ne_nil_of {α : Type} {l : List α} {n : Nat} (hl : l ≠ []) (hn : 0 < n) :
    l.take n ≠ [] := by
  cases l with
  | nil => exact absurd rfl hl
  | cons a as =>
    cases n with
    | zero => omega
    | succ m => simp

/-- One unfolding of the worker loop when the inbox was stopped: the worker
observes `stopped` at the top of the iteration and exits at once. -/
theorem runLoop_stopped (cons : List Envelope → IStatus → IStatus)
    (st : InboxSt) (i t : Nat) (h : st.status = .stopped) :
    Inbox.runLoop cons st i t = st := by
  rw [Inbox.runLoop]
  simp [h]

/-- The worker loop with a consumer that does not touch the status drains the
ring buffer completely and returns with the status it started with. -/
theorem runLoop_drain :
    ∀ (n : Nat) (st : InboxSt) (i t : Nat), st.rb.length ≤ n → st.status = .running →
      Inbox.runLoop (fun _ s => s) st i t =
        { st with rb := [], delivered := st.delivered ++ st.rb } := by
  intro n
  induction n with
  | zero =>
    intro st i t hlen hs
    have hrb : st.rb = [] := List.length_eq_zero.mp (Nat.le_zero.mp hlen)
    rw [Inbox.runLoop]
    have hns : ¬ st.status = .stopped := by rw [hs]; intro hc; cases hc
    cases st with
    | mk rb status submitted delivered =>
      simp only at hrb
      subst hrb
      simp [hns, Inbox.popN]
  | succ m ih =>
    intro st i t hlen hs
    by_cases hrb : st.rb = []
    · rw [Inbox.runLoop]
      have hns : ¬ st.status = .stopped := by rw [hs]; intro hc; cases hc
      cases st with
      | mk rb status submitted delivered =>
        simp only at hrb
        subst hrb
        simp [hns, Inbox.popN]
    · rw [Inbox.runLoop]
      have hns : ¬ st.status = .stopped := by rw [hs]; intro hc; cases hc
      have htake : st.rb.take messageBatchSize ≠ [] :=
        take_ne_nil_of hrb (by decide)
      simp only [hns, if_false, Inbox.popN, htake, dite_false, dif_neg,
        not_false_eq_true]
      have hlen' : (st.rb.drop messageBatchSize).length ≤ m := by
        have h1 : 0 < st.rb.length := List.length_pos.mpr hrb
        simp only [List.length_drop]
        have : (0 : Nat) < messageBatchSize := by decide
        omega
      rw [ih _ _ t hlen' (by simp [hs])]
      have hjoin : st.rb.take messageBatchSize ++ st.rb.drop messageBatchSize = st.rb :=
        List.take_append_drop _ _
      cases st with
      | mk rb status submitted delivered =>
        simp only [InboxSt.mk.injEq, List.append_assoc]
        refine ⟨trivial, trivial, trivial, ?_⟩
        rw [hjoin]

/-- The worker loop with a consumer that stops the inbox from inside
`Invoke`: exactly one batch is delivered, the worker observes `stopped` at
the top of the next iteration and exits with the rest of the buffer
unpopped. -/
theorem runLoop_stop_inside (st : InboxSt) (i t : Nat)
    (hs : st.status = .running) (hrb : st.rb ≠ []) :
    Inbox.runLoop (fun _ _ => IStatus.stopped) st i t =
      { st with rb := st.rb.drop messageBatchSize,
                delivered := st.delivered ++ st.rb.take messageBatchSize,
                status := .stopped } := by
  rw [Inbox.runLoop]
  have hns : ¬ st.status = .stopped := by rw [hs]; intro hc; cases hc
  have htake : st.rb.take messageBatchSize ≠ [] :=
    take_ne_nil_of hrb (by decide)
  simp only [hns, if_false, Inbox.popN, htake, dite_false, dif_neg, not_false_eq_true]
  rw [runLoop_stopped _ _ _ _ rfl]

/-- Claim C7: `Inbox.Send` pushes the envelope to the ring buffer and then
attempts `CAS(Idle→Running)`, submitting the worker to the scheduler exactly
when the CAS succeeds and doing nothing further when the status is Starting,
Running or Stopped; the worker loop returns when `PopN` yields no messages,
after which the status transitions Running→Idle via CAS; and once `Stop` has
stored Stopped the worker observes it at the top of its next iteration and
exits. -/
theorem inbox_send_run_stop :
    (∀ (st : InboxSt) (e : Envelope),
      (Inbox.send st e).rb = st.rb ++ [e] ∧
      (st.status = .idle →
        (Inbox.send st e).status = .running ∧
        (Inbox.send st e).submitted = st.submitted + 1) ∧
      (st.status ≠ .idle →
        (Inbox.send st e).status = st.status ∧
        (Inbox.send st e).submitted = st.submitted ∧
        (Inbox.send st e).delivered = st.delivered)) ∧
    (∀ (cons : List Envelope → IStatus → IStatus) (st : InboxSt) (i t : Nat),
      st.status = .stopped → Inbox.runLoop cons st i t = st) ∧
    (∀ (st : InboxSt), st.status = .running →
      (Inbox.procRun (fun _ s => s) st).rb = [] ∧
      (Inbox.procRun (fun _ s => s) st).status = .idle ∧
      (Inbox.procRun (fun _ s => s) st).delivered = st.delivered ++ st.rb) ∧
    (∀ (st : InboxSt), st.status = .running → st.rb ≠ [] →
      (Inbox.procRun (fun _ _ => IStatus.stopped) st).status = .stopped ∧
      (Inbox.procRun (fun _ _ => IStatus.stopped) st).rb = st.rb.drop messageBatchSize ∧
      (Inbox.procRun (fun _ _ => IStatus.stopped) st).delivered =
        st.delivered ++ st.rb.take messageBatchSize) := by
  refine ⟨?_, ?_, ?_, ?_⟩
  · intro st e
    refine ⟨?_, ?_, ?_⟩
    · simp [Inbox.send, Inbox.schedule, Inbox.push]
      by_cases h : st.status = .idle <;> simp [h]
    · intro h
      simp [Inbox.send, Inbox.schedule, Inbox.push, h]
    · intro h
      have h' : ¬ ({ st with rb := st.rb ++ [e] } : InboxSt).status = .idle := h
      simp [Inbox.send, Inbox.schedule, Inbox.push, h']
  · exact fun cons st i t h => runLoop_stopped cons st i t h
  · intro st h
    have hd := runLoop_drain st.rb.length st 0 defaultThroughput le_rfl h
    simp only [Inbox.procRun, hd]
    simp [h]
  · intro st h hrb
    have hd := runLoop_stop_inside st 0 defaultThroughput h hrb
    simp only [Inbox.procRun, hd]
    have : ¬ (IStatus.stopped = IStatus.running) := by intro hc; cases hc
    simp [this]

/-- Witness for C7 at concrete inputs. -/
theorem inbox_send_run_stop_witness :
    (({ rb := [], status := .idle, submitted := 0, delivered := [] } : InboxSt).status
        = .idle ∧
      (Inbox.send { rb := [], status := .idle, submitted := 0, delivered := [] }
        (uEnv 1)).status = .running) ∧
    (({ rb := [uEnv 1], status := .running, submitted := 1, delivered := [] } : InboxSt).status
        = .running ∧
      (Inbox.procRun (fun _ s => s)
        { rb := [uEnv 1], status := .running, submitted := 1, delivered := [] }).status
        = .idle) := by
  constructor
  · have h := (inbox_send_run_stop.1
      { rb := [], status := .idle, submitted := 0, delivered := [] } (uEnv 1)).2.1 rfl
    exact ⟨rfl, h.1⟩
  · have h := (inbox_send_run_stop.2.2.1
      { rb := [uEnv 1], status := .running, submitted := 1, delivered := [] } rfl)
    exact ⟨rfl, h.2.1⟩

/-! ### Computation lemmas for the `Invoke` loop -/

theorem invokeMsg_pill_eq (cfg : Cfg) (st : ProcState) (g w : Bool) (s : Option Nat) :
    invokeMsg cfg st ⟨Msg.pill g w, s⟩ = .ok st := rfl

theorem invokeMsg_ok (cfg : Cfg) (st : ProcState) (e : Envelope)
    (hp : e.msg.isPill = false) (hb : cfg.behavior st.gen e.msg = none) :
    invokeMsg cfg st e = .ok (pushDel st (envDel cfg st.gen e)) := by
  cases e with
  | mk m s =>
    cases m with
    | pill g w => simp [Msg.isPill] at hp
    | user n => simp only [invokeMsg] at *; rw [hb]
    | initialized => simp only [invokeMsg] at *; rw [hb]
    | started => simp only [invokeMsg] at *; rw [hb]
    | stopped => simp only [invokeMsg] at *; rw [hb]

theorem invokeMsg_panic (cfg : Cfg) (st : ProcState) (e : Envelope) (v : PanicVal)
    (hp : e.msg.isPill = false) (hb : cfg.behavior st.gen e.msg = some v) :
    invokeMsg cfg st e = .error (v, pushDel st (envDel cfg st.gen e)) := by
  cases e with
  | mk m s =>
    cases m with
    | pill g w => simp [Msg.isPill] at hp
    | user n => simp only [invokeMsg] at *; rw [hb]
    | initialized => simp only [invokeMsg] at *; rw [hb]
    | started => simp only [invokeMsg] at *; rw [hb]
    | stopped => simp only [invokeMsg] at *; rw [hb]

theorem runRemainder_clean (cfg : Cfg) :
    ∀ (l : List Envelope) (st : ProcState),
      (∀ e ∈ l, e.msg.isPill = false → cfg.behavior st.gen e.msg = none) →
      runRemainder cfg st l =
        .ok { st with trace := st.trace ++
          (l.filter (fun e => !e.msg.isPill)).map (envDel cfg st.gen) } := by
  intro l
  induction l with
  | nil =>
    intro st _
    simp [runRemainder]
  | cons e es ih =>
    intro st h
    by_cases hp : e.msg.isPill = true
    · obtain ⟨g, w⟩ : ∃ g w, e.msg = Msg.pill g w := by
        cases hm : e.msg <;> simp [Msg.isPill, hm] at hp ⊢
      obtain ⟨w', hw⟩ := w
      have hskip : invokeMsg cfg st e = .ok st := by
        cases e with
        | mk m s => simp only at hw; rw [hw]; rfl
      simp only [runRemainder, hskip]
      rw [ih st (fun e' he' => h e' (by simp [he']))]
      simp [List.filter, hp]
    · have hp' : e.msg.isPill = false := by simpa using hp
      have hb : cfg.behavior st.gen e.msg = none := h e (by simp) hp'
      simp only [runRemainder, invokeMsg_ok cfg st e hp' hb]
      rw [ih (pushDel st (envDel cfg st.gen e))
        (fun e' he' => h e' (by simp [he']))]
      simp [pushDel, List.filter, hp', List.append_assoc]

theorem invokeLoop_clean (cfg : Cfg) :
    ∀ (l : List Envelope) (st : ProcState),
      (∀ e ∈ l, e.msg.isPill = false ∧ cfg.behavior st.gen e.msg = none) →
      invokeLoop cfg st l =
        .done { st with trace := st.trace ++ l.map (envDel cfg st.gen) } := by
  intro l
  induction l with
  | nil =>
    intro st _
    simp [invokeLoop]
  | cons e es ih =>
    intro st h
    have hp : e.msg.isPill = false := (h e (by simp)).1
    have hb : cfg.behavior st.gen e.msg = none := (h e (by simp)).2
    cases e with
    | mk m s =>
      cases m with
      | pill g w => simp [Msg.isPill] at hp
      | user n =>
        simp only [invokeLoop, invokeMsg_ok cfg st ⟨Msg.user n, s⟩ hp hb]
        rw [ih (pushDel st (envDel cfg st.gen ⟨Msg.user n, s⟩))
          (fun e' he' => h e' (by simp [he']))]
        simp [pushDel, List.append_assoc]
      | initialized =>
        simp only [invokeLoop, invokeMsg_ok cfg st ⟨Msg.initialized, s⟩ hp hb]
        rw [ih (pushDel st (envDel cfg st.gen ⟨Msg.initialized, s⟩))
          (fun e' he' => h e' (by simp [he']))]
        simp [pushDel, List.append_assoc]
      | started =>
        simp only [invokeLoop, invokeMsg_ok cfg st ⟨Msg.started, s⟩ hp hb]
        rw [ih (pushDel st (envDel cfg st.gen ⟨Msg.started, s⟩))
          (fun e' he' => h e' (by simp [he']))]
        simp [pushDel, List.append_assoc]
      | stopped =>
        simp only [invokeLoop, invokeMsg_ok cfg st ⟨Msg.stopped, s⟩ hp hb]
        rw [ih (pushDel st (envDel cfg st.gen ⟨Msg.stopped, s⟩))
          (fun e' he' => h e' (by simp [he']))]
        simp [pushDel, List.append_assoc]

theorem invokeLoop_pill_graceful (cfg : Cfg) :
    ∀ (pre : List Envelope) (st : ProcState) (w : Bool) (s : Option Nat)
      (rest : List Envelope),
      (∀ e ∈ pre, e.msg.isPill = false ∧ cfg.behavior st.gen e.msg = none) →
      (∀ e ∈ rest, e.msg.isPill = false → cfg.behavior st.gen e.msg = none) →
      invokeLoop cfg st (pre ++ ⟨Msg.pill true w, s⟩ :: rest) =
        .stop (cleanup cfg
          { st with trace := st.trace ++ pre.map (envDel cfg st.gen)
              ++ (rest.filter (fun e => !e.msg.isPill)).map (envDel cfg st.gen) } w) := by
  intro pre
  induction pre with
  | nil =>
    intro st w s rest hpre hrest
    simp only [List.nil_append, invokeLoop]
    rw [show runRemainder cfg st (⟨Msg.pill true w, s⟩ :: rest) =
        runRemainder cfg st rest from rfl]
    rw [runRemainder_clean cfg rest st hrest]
    simp
  | cons e es ih =>
    intro st w s rest hpre hrest
    have hp : e.msg.isPill = false := (hpre e (by simp)).1
    have hb : cfg.behavior st.gen e.msg = none := (hpre e (by simp)).2
    have hstep : invokeMsg cfg st e = .ok (pushDel st (envDel cfg st.gen e)) :=
      invokeMsg_ok cfg st e hp hb
    cases e with
    | mk m s' =>
      cases m with
      | pill g' w' => simp [Msg.isPill] at hp
      | user n =>
        simp only [List.cons_append, invokeLoop, hstep, List.append_eq]
        rw [ih (pushDel st (envDel cfg st.gen ⟨Msg.user n, s'⟩))  w s rest
          (fun e' he' => hpre e' (by simp [he'])) hrest]
        simp [pushDel, List.append_assoc]
      | initialized =>
        simp only [List.cons_append, invokeLoop, hstep, List.append_eq]
        rw [ih (pushDel st (envDel cfg st.gen ⟨Msg.initialized, s'⟩)) w s rest
          (fun e' he' => hpre e' (by simp [he'])) hrest]
        simp [pushDel, List.append_assoc]
      | started =>
        simp only [List.cons_append, invokeLoop, hstep, List.append_eq]
        rw [ih (pushDel st (envDel cfg st.gen ⟨Msg.started, s'⟩)) w s rest
          (fun e' he' => hpre e' (by simp [he'])) hrest]
        simp [pushDel, List.append_assoc]
      | stopped =>
        simp only [List.cons_append, invokeLoop, hstep, List.append_eq]
        rw [ih (pushDel st (envDel cfg st.gen ⟨Msg.stopped, s'⟩)) w s rest
          (fun e' he' => hpre e' (by simp [he'])) hrest]
        simp [pushDel, List.append_assoc]

theorem invokeLoop_pill_hard (cfg : Cfg) :
    ∀ (pre : List Envelope) (st : ProcState) (w : Bool) (s : Option Nat)
      (rest : List Envelope),
      (∀ e ∈ pre, e.msg.isPill = false ∧ cfg.behavior st.gen e.msg = none) →
      invokeLoop cfg st (pre ++ ⟨Msg.pill false w, s⟩ :: rest) =
        .stop (cleanup cfg
          { st with trace := st.trace ++ pre.map (envDel cfg st.gen) } w) := by
  intro pre
  induction pre with
  | nil =>
    intro st w s rest hpre
    simp [invokeLoop]
  | cons e es ih =>
    intro st w s rest hpre
    have hp : e.msg.isPill = false := (hpre e (by simp)).1
    have hb : cfg.behavior st.gen e.msg = none := (hpre e (by simp)).2
    have hstep : invokeMsg cfg st e = .ok (pushDel st (envDel cfg st.gen e)) :=
      invokeMsg_ok cfg st e hp hb
    cases e with
    | mk m s' =>
      cases m with
      | pill g' w' => simp [Msg.isPill] at hp
      | user n =>
        simp only [List.cons_append, invokeLoop, hstep, List.append_eq]
        rw [ih (pushDel st (envDel cfg st.gen ⟨Msg.user n, s'⟩)) w s rest
          (fun e' he' => hpre e' (by simp [he']))]
        simp [pushDel, List.append_assoc]
      | initialized =>
        simp only [List.cons_append, invokeLoop, hstep, List.append_eq]
        rw [ih (pushDel st (envDel cfg st.gen ⟨Msg.initialized, s'⟩)) w s rest
          (fun e' he' => hpre e' (by simp [he']))]
        simp [pushDel, List.append_assoc]
      | started =>
        simp only [List.cons_append, invokeLoop, hstep, List.append_eq]
        rw [ih (pushDel st (envDel cfg st.gen ⟨Msg.started, s'⟩)) w s rest
          (fun e' he' => hpre e' (by simp [he']))]
        simp [pushDel, List.append_assoc]
      | stopped =>
        simp only [List.cons_append, invokeLoop, hstep, List.append_eq]
        rw [ih (pushDel st (envDel cfg st.gen ⟨Msg.stopped, s'⟩)) w s rest
          (fun e' he' => hpre e' (by simp [he']))]
        simp [pushDel, List.append_assoc]

theorem invokeLoop_panic_at (cfg : Cfg) :
    ∀ (pre : List Envelope) (st : ProcState) (ep : Envelope)
      (rest : List Envelope) (v : PanicVal),
      (∀ e ∈ pre, e.msg.isPill = false ∧ cfg.behavior st.gen e.msg = none) →
      ep.msg.isPill = false → cfg.behavior st.gen ep.msg = some v →
      invokeLoop cfg st (pre ++ ep :: rest) =
        .panicked { st with trace := st.trace ++ pre.map (envDel cfg st.gen)
            ++ [envDel cfg st.gen ep] } v rest := by
  intro pre
  induction pre with
  | nil =>
    intro st ep rest v _ hp hb
    have hstep : invokeMsg cfg st ep = .error (v, pushDel st (envDel cfg st.gen ep)) :=
      invokeMsg_panic cfg st ep v hp hb
    cases ep with
    | mk m s' =>
      cases m with
      | pill g' w' => simp [Msg.isPill] at hp
      | user n =>
        simp only [List.nil_append, invokeLoop, hstep]
        simp [pushDel]
      | initialized =>
        simp only [List.nil_append, invokeLoop, hstep]
        simp [pushDel]
      | started =>
        simp only [List.nil_append, invokeLoop, hstep]
        simp [pushDel]
      | stopped =>
        simp only [List.nil_append, invokeLoop, hstep]
        simp [pushDel]
  | cons e es ih =>
    intro st ep rest v hpre hp hb
    have hpe : e.msg.isPill = false := (hpre e (by simp)).1
    have hbe : cfg.behavior st.gen e.msg = none := (hpre e (by simp)).2
    have hstep : invokeMsg cfg st e = .ok (pushDel st (envDel cfg st.gen e)) :=
      invokeMsg_ok cfg st e hpe hbe
    cases e with
    | mk m s' =>
      cases m with
      | pill g' w' => simp [Msg.isPill] at hpe
      | user n =>
        simp only [List.cons_append, invokeLoop, hstep, List.append_eq]
        rw [ih (pushDel st (envDel cfg st.gen ⟨Msg.user n, s'⟩)) ep rest v
          (fun e' he' => hpre e' (by simp [he'])) hp hb]
        simp [pushDel, List.append_assoc]
      | initialized =>
        simp only [List.cons_append, invokeLoop, hstep, List.append_eq]
        rw [ih (pushDel st (envDel cfg st.gen ⟨Msg.initialized, s'⟩)) ep rest v
          (fun e' he' => hpre e' (by simp [he'])) hp hb]
        simp [pushDel, List.append_assoc]
      | started =>
        simp only [List.cons_append, invokeLoop, hstep, List.append_eq]
        rw [ih (pushDel st (envDel cfg st.gen ⟨Msg.started, s'⟩)) ep rest v
          (fun e' he' => hpre e' (by simp [he'])) hp hb]
        simp [pushDel, List.append_assoc]
      | stopped =>
        simp only [List.cons_append, invokeLoop, hstep, List.append_eq]
        rw [ih (pushDel st (envDel cfg st.gen ⟨Msg.stopped, s'⟩)) ep rest v
          (fun e' he' => hpre e' (by simp [he'])) hp hb]
        simp [pushDel, List.append_assoc]

/-! ### C1: poison-pill handling in `Invoke` -/

/-- Claim C1: for every batch passed to `process.Invoke` that contains a
poison pill (first pill at the end of `pre`, with `Receive` not panicking on
the batch): if the pill is graceful, every remaining non-pill envelope of the
batch is delivered to the receiver and then `cleanup(wg)` is called and
`Invoke` returns; if the pill is not graceful, `cleanup(wg)` is called
immediately without delivering the remaining envelopes.  The last conjunct
spells out what `cleanup` does: it delivers `Stopped`, broadcasts
`ActorStoppedEvent`, marks the process cleaned up, and signals the wait
group when present. -/
theorem invoke_poison_pill (cfg : Cfg) (fuel : Nat) (st : ProcState)
    (pre rest : List Envelope) (w : Bool) (s : Option Nat)
    (hpre : ∀ e ∈ pre, e.msg.isPill = false ∧ cfg.behavior st.gen e.msg = none)
    (hrest : ∀ e ∈ rest, e.msg.isPill = false → cfg.behavior st.gen e.msg = none) :
    (exec cfg (fuel + 1) (Call.invoke (pre ++ ⟨Msg.pill true w, s⟩ :: rest)) st =
      cleanup cfg { st with trace := st.trace ++ pre.map (envDel cfg st.gen)
        ++ (rest.filter (fun e => !e.msg.isPill)).map (envDel cfg st.gen) } w) ∧
    (exec cfg (fuel + 1) (Call.invoke (pre ++ ⟨Msg.pill false w, s⟩ :: rest)) st =
      cleanup cfg { st with trace := st.trace ++ pre.map (envDel cfg st.gen) } w) ∧
    (∀ (st' : ProcState) (w' : Bool),
      (cleanup cfg st' w').cleanedUp = true ∧
      (cleanup cfg st' w').trace = st'.trace ++ [lifeDel st'.gen Msg.stopped true] ∧
      (cleanup cfg st' w').events = st'.events ++ [Event.actorStopped] ∧
      (cleanup cfg st' w').wgDone = (w' || st'.wgDone)) := by
  refine ⟨?_, ?_, ?_⟩
  · simp only [exec, invokeLoop_pill_graceful cfg pre st w s rest hpre hrest]
  · simp only [exec, invokeLoop_pill_hard cfg pre st w s rest hpre]
  · intro st' w'
    cases w' <;> simp [cleanup, pushDel, lifeDel]

/-- Witness for C1 at a concrete input. -/
theorem invoke_poison_pill_witness :
    ((∀ e ∈ [uEnv 1], e.msg.isPill = false ∧
        noPanicCfg.behavior initState.gen e.msg = none) ∧
     (∀ e ∈ [uEnv 2], e.msg.isPill = false →
        noPanicCfg.behavior initState.gen e.msg = none)) ∧
    exec noPanicCfg 1
        (Call.invoke ([uEnv 1] ++ ⟨Msg.pill true true, none⟩ :: [uEnv 2])) initState =
      cleanup noPanicCfg
        { initState with trace := initState.trace
            ++ [uEnv 1].map (envDel noPanicCfg initState.gen)
            ++ (([uEnv 2].filter (fun e => !e.msg.isPill)).map
                  (envDel noPanicCfg initState.gen)) } true := by
  have h1 : ∀ e ∈ [uEnv 1], e.msg.isPill = false ∧
      noPanicCfg.behavior initState.gen e.msg = none := by decide
  have h2 : ∀ e ∈ [uEnv 2], e.msg.isPill = false →
      noPanicCfg.behavior initState.gen e.msg = none := by decide
  exact ⟨⟨h1, h2⟩,
    (invoke_poison_pill noPanicCfg 0 initState [uEnv 1] [uEnv 2] true none h1 h2).1⟩

/-! ### C4: what the panic-recovery buffer contains -/

/-- Counterexample to claim C4: a generation-1 receiver panics on `user 2` in
the batch `[user 1, user 2, user 3]`.  The claim says `mbuffer` starts at the
panicking index (so `[user 2, user 3]`, replaying `user 2`); the source sets
`mbuffer = msgs[nproc:]` with `nproc` already incremented, i.e. `[user 3]`,
and after the restart generation 2 observes `user 3` but never `user 2`. -/
theorem invoke_panic_no_replay_cex :
    (exec panicOnU2Cfg 1 (Call.invoke [uEnv 1, uEnv 2, uEnv 3]) gen1State).mbuffer
      = [uEnv 3] ∧
    ([uEnv 3] : List Envelope) ≠ [uEnv 2, uEnv 3] ∧
    (genDs 2 (runProcess panicOnU2Cfg 10 [[uEnv 1, uEnv 2, uEnv 3]]).trace).map
        (fun d => d.msg) = [Msg.initialized, Msg.started, Msg.user 3] ∧
    ([Msg.initialized, Msg.started, Msg.user 3] ≠
      [Msg.initialized, Msg.started, Msg.user 2, Msg.user 3]) := by
  exact ⟨by decide, by decide, by decide, by decide⟩

/-- Claim C4 amended: when a user `Receive` panics during `Invoke` on the
message at batch index `i` (= `pre.length`), the process delivers `Stopped`
to the receiver and buffers the envelopes of the batch strictly after the
panicking one (`msgs[i+1:]`), so the panicking message is NOT replayed; after
the restart the fresh receiver observes `Initialized`, `Started`, and then
the buffered not-yet-processed envelopes, in order. -/
theorem invoke_panic_buffers_after (cfg : Cfg) (fuel k : Nat) (st : ProcState)
    (pre rest : List Envelope) (ep : Envelope)
    (hpre : ∀ e ∈ pre, e.msg.isPill = false ∧ cfg.behavior st.gen e.msg = none)
    (hp : ep.msg.isPill = false)
    (hb : cfg.behavior st.gen ep.msg = some (PanicVal.other k))
    (hmax : ¬ st.restarts = cfg.maxRestarts)
    (hbi : cfg.behavior (st.gen + 1) Msg.initialized = none)
    (hbs : cfg.behavior (st.gen + 1) Msg.started = none)
    (hrest : ∀ e ∈ rest, e.msg.isPill = false ∧
      cfg.behavior (st.gen + 1) e.msg = none) :
    exec cfg (fuel + 4) (Call.invoke (pre ++ ep :: rest)) st =
      { st with
        gen := st.gen + 1,
        restarts := st.restarts + 1,
        mbuffer := [],
        trace := st.trace ++ pre.map (envDel cfg st.gen) ++ [envDel cfg st.gen ep]
          ++ [lifeDel st.gen Msg.stopped false]
          ++ [lifeDel (st.gen + 1) Msg.initialized true]
          ++ [lifeDel (st.gen + 1) Msg.started true]
          ++ rest.map (envDel cfg (st.gen + 1)),
        events := st.events ++ [Event.actorRestarted (st.restarts + 1),
          Event.actorInitialized, Event.actorStarted],
        sleeps := st.sleeps ++ [cfg.restartDelay],
        inboxOn := true,
        revived := st.revived || st.cleanedUp,
        inboxStarted := true } := by
  have hloop := invokeLoop_panic_at cfg pre st ep rest (PanicVal.other k) hpre hp hb
  by_cases hr : rest = []
  · subst hr
    simp only [exec, hloop, recoverFrom, pushDel, lifeDel]
    rw [if_neg hmax]
    simp only [exec, pushDel, lifeDel, hbi, hbs, List.isEmpty_nil, if_true]
    simp [List.append_assoc]
  · have hne : rest.isEmpty = false := by
      cases rest with
      | nil => exact absurd rfl hr
      | cons a as => rfl
    simp only [exec, hloop, recoverFrom, pushDel, lifeDel]
    rw [if_neg hmax]
    simp only [exec, pushDel, lifeDel, hbi, hbs, hne, Bool.false_eq_true, if_false]
    rw [invokeLoop_clean cfg rest _ (fun e he => hrest e he)]
    simp [List.append_assoc]

/-! ### Invariant machinery for the whole-run claims -/

theorem mark_concat_started (l : List Delivery) (g : Nat) :
    hasStartedMark (l ++ [lifeDel g Msg.started true]) = true := by
  simp [hasStartedMark, isLifeStarted, lifeDel]

theorem append_ne_nil_left {α : Type} {l : List α} (m : List α) (h : l ≠ []) :
    l ++ m ≠ [] := by
  cases l with
  | nil => exact absurd rfl h
  | cons a as => simp

theorem bool_or_eq_false_left {a b : Bool} (h : (a || b) = false) : a = false := by
  cases a with
  | false => rfl
  | true =>
    rw [Bool.true_or] at h
    exact h

theorem genDs_ne_push (st : ProcState) (d : Delivery)
    (h : genDs st.gen st.trace ≠ []) :
    genDs st.gen (pushDel st d).trace ≠ [] := by
  show genDs st.gen (st.trace ++ [d]) ≠ []
  rw [genDs_append]
  exact append_ne_nil_left _ h

theorem mark_push (st : ProcState) (d : Delivery)
    (h : hasStartedMark (genDs st.gen st.trace) = true) :
    hasStartedMark (genDs st.gen (pushDel st d).trace) = true := by
  show hasStartedMark (genDs st.gen (st.trace ++ [d])) = true
  rw [genDs_append]
  exact mark_append_left _ h

theorem invokeMsg_cases (cfg : Cfg) (st : ProcState) (e : Envelope) :
    (e.msg.isPill = true ∧ invokeMsg cfg st e = .ok st) ∨
    (e.msg.isPill = false ∧ cfg.behavior st.gen e.msg = none ∧
      invokeMsg cfg st e = .ok (pushDel st (envDel cfg st.gen e))) ∨
    (∃ v, e.msg.isPill = false ∧ cfg.behavior st.gen e.msg = some v ∧
      invokeMsg cfg st e = .error (v, pushDel st (envDel cfg st.gen e))) := by
  by_cases hp : e.msg.isPill = true
  · left
    refine ⟨hp, ?_⟩
    cases e with
    | mk m s =>
      cases m with
      | pill g w => rfl
      | user n => simp [Msg.isPill] at hp
      | initialized => simp [Msg.isPill] at hp
      | started => simp [Msg.isPill] at hp
      | stopped => simp [Msg.isPill] at hp
  · have hp' : e.msg.isPill = false := by simpa using hp
    cases hb : cfg.behavior st.gen e.msg with
    | none => exact Or.inr (Or.inl ⟨hp', rfl, invokeMsg_ok cfg st e hp' hb⟩)
    | some v => exact Or.inr (Or.inr ⟨v, hp', rfl, invokeMsg_panic cfg st e v hp' hb⟩)

theorem TraceInv_push_env (cfg : Cfg) (st : ProcState) (e : Envelope)
    (hInv : TraceInv cfg st)
    (hlive : st.cleanedUp = true → st.inboxOn = true)
    (hg1 : 1 ≤ st.gen)
    (hne : genDs st.gen st.trace ≠ [])
    (hmark : st.revived = false → hasStartedMark (genDs st.gen st.trace) = true)
    (hp : e.msg.isPill = false) :
    TraceInv cfg (pushDel st (envDel cfg st.gen e)) := by
  have htr : (pushDel st (envDel cfg st.gen e)).trace
      = st.trace ++ [envDel cfg st.gen e] := rfl
  constructor
  · intro d hd
    rw [htr, List.mem_append] at hd
    rcases hd with hd | hd
    · exact hInv.genBounds d hd
    · rw [List.mem_singleton] at hd
      subst hd
      exact ⟨hg1, le_refl _⟩
  · intro g
    rw [htr, genDs_append]
    by_cases hg : (envDel cfg st.gen e).gen = g
    · rw [genDs_single_eq hg]
      have hgg : st.gen = g := hg
      have hne' : genDs g st.trace ≠ [] := hgg ▸ hne
      rw [headInit_append_left _ hne']
      exact hInv.headAll g
    · rw [genDs_single_ne hg, List.append_nil]
      exact hInv.headAll g
  · intro hrev g
    have hrev' : st.revived = false := hrev
    rw [htr, genDs_append]
    by_cases hg : (envDel cfg st.gen e).gen = g
    · rw [genDs_single_eq hg]
      have hgg : st.gen = g := hg
      exact noEnv_append_of_mark (hgg ▸ hmark hrev') (hInv.noEnvB hrev' g)
    · rw [genDs_single_ne hg, List.append_nil]
      exact hInv.noEnvB hrev' g
  · intro g hg1' hglt
    have hA : (pushDel st (envDel cfg st.gen e)).gen = st.gen := rfl
    have hne2 : (envDel cfg st.gen e).gen ≠ g := by
      intro hx
      have hB : st.gen = g := hx
      omega
    rw [htr, genDs_append, genDs_single_ne hne2, List.append_nil]
    exact hInv.endedStopped g hg1' hglt
  · intro hcl' hio'
    have hio2 : st.inboxOn = true := hlive hcl'
    have hio3 : st.inboxOn = false := hio'
    rw [hio2] at hio3
    cases hio3
  · intro d hd
    rw [htr, List.mem_append] at hd
    rcases hd with hd | hd
    · exact hInv.noPill d hd
    · rw [List.mem_singleton] at hd
      subst hd
      exact hp
  · intro hMw d hd hdmw
    rw [htr, List.mem_append] at hd
    rcases hd with hd | hd
    · exact hInv.mwStopped hMw d hd hdmw
    · rw [List.mem_singleton] at hd
      subst hd
      have : (envDel cfg st.gen e).mw = true := hMw
      rw [this] at hdmw
      cases hdmw

theorem TraceInv_push_life (cfg : Cfg) (st : ProcState) (m : Msg) (mw : Bool)
    (hInv : TraceInv cfg st)
    (hlive : st.cleanedUp = true → st.inboxOn = true)
    (hg1 : 1 ≤ st.gen)
    (hne : genDs st.gen st.trace ≠ [])
    (hm : m.isPill = false)
    (hmw : mw = false → m = Msg.stopped) :
    TraceInv cfg (pushDel st (lifeDel st.gen m mw)) := by
  have htr : (pushDel st (lifeDel st.gen m mw)).trace
      = st.trace ++ [lifeDel st.gen m mw] := rfl
  constructor
  · intro d hd
    rw [htr, List.mem_append] at hd
    rcases hd with hd | hd
    · exact hInv.genBounds d hd
    · rw [List.mem_singleton] at hd
      subst hd
      exact ⟨hg1, le_refl _⟩
  · intro g
    rw [htr, genDs_append]
    by_cases hg : (lifeDel st.gen m mw).gen = g
    · rw [genDs_single_eq hg]
      have hgg : st.gen = g := hg
      have hne' : genDs g st.trace ≠ [] := hgg ▸ hne
      rw [headInit_append_left _ hne']
      exact hInv.headAll g
    · rw [genDs_single_ne hg, List.append_nil]
      exact hInv.headAll g
  · intro hrev g
    have hrev' : st.revived = false := hrev
    rw [htr, genDs_append]
    by_cases hg : (lifeDel st.gen m mw).gen = g
    · rw [genDs_single_eq hg]
      exact noEnv_append_life (hInv.noEnvB hrev' g) (by
        intro d hd
        rw [List.mem_singleton] at hd
        subst hd
        rfl)
    · rw [genDs_single_ne hg, List.append_nil]
      exact hInv.noEnvB hrev' g
  · intro g hg1' hglt
    have hA : (pushDel st (lifeDel st.gen m mw)).gen = st.gen := rfl
    have hne2 : (lifeDel st.gen m mw).gen ≠ g := by
      intro hx
      have hB : st.gen = g := hx
      omega
    rw [htr, genDs_append, genDs_single_ne hne2, List.append_nil]
    exact hInv.endedStopped g hg1' hglt
  · intro hcl' hio'
    have hio2 : st.inboxOn = true := hlive hcl'
    have hio3 : st.inboxOn = false := hio'
    rw [hio2] at hio3
    cases hio3
  · intro d hd
    rw [htr, List.mem_append] at hd
    rcases hd with hd | hd
    · exact hInv.noPill d hd
    · rw [List.mem_singleton] at hd
      subst hd
      exact hm
  · intro hMw d hd hdmw
    rw [htr, List.mem_append] at hd
    rcases hd with hd | hd
    · exact hInv.mwStopped hMw d hd hdmw
    · rw [List.mem_singleton] at hd
      subst hd
      exact ⟨hmw hdmw, rfl⟩

theorem TraceInv_bump (cfg : Cfg) (st : ProcState)
    (hInv : TraceInv cfg st)
    (hlive : st.cleanedUp = true → st.inboxOn = true)
    (hend : st.gen = 0 ∨ endsStopped (genDs st.gen st.trace) = true) :
    TraceInv cfg { st with gen := st.gen + 1 } := by
  have hG : ({ st with gen := st.gen + 1 } : ProcState).gen = st.gen + 1 := rfl
  constructor
  · intro d hd
    have h := hInv.genBounds d hd
    refine ⟨h.1, ?_⟩
    have h2 := h.2
    omega
  · exact hInv.headAll
  · intro hrev
    exact hInv.noEnvB hrev
  · intro g hg1' hglt
    rw [hG] at hglt
    by_cases hg : g < st.gen
    · exact hInv.endedStopped g hg1' hg
    · have hgg : g = st.gen := by omega
      subst hgg
      rcases hend with hend | hend
      · omega
      · exact hend
  · intro hcl' hio'
    have hio2 : st.inboxOn = true := hlive hcl'
    have hio3 : st.inboxOn = false := hio'
    rw [hio2] at hio3
    cases hio3
  · exact hInv.noPill
  · exact hInv.mwStopped

theorem TraceInv_push_init (cfg : Cfg) (st : ProcState)
    (hInv : TraceInv cfg st)
    (hlive : st.cleanedUp = true → st.inboxOn = true)
    (hg1 : 1 ≤ st.gen)
    (hnil : genDs st.gen st.trace = []) :
    TraceInv cfg (pushDel st (lifeDel st.gen Msg.initialized true)) := by
  have htr : (pushDel st (lifeDel st.gen Msg.initialized true)).trace
      = st.trace ++ [lifeDel st.gen Msg.initialized true] := rfl
  constructor
  · intro d hd
    rw [htr, List.mem_append] at hd
    rcases hd with hd | hd
    · exact hInv.genBounds d hd
    · rw [List.mem_singleton] at hd
      subst hd
      exact ⟨hg1, le_refl _⟩
  · intro g
    rw [htr, genDs_append]
    by_cases hg : (lifeDel st.gen Msg.initialized true).gen = g
    · have hgg : st.gen = g := hg
      rw [genDs_single_eq hg, ← hgg, hnil, List.nil_append]
      rfl
    · rw [genDs_single_ne hg, List.append_nil]
      exact hInv.headAll g
  · intro hrev g
    have hrev' : st.revived = false := hrev
    rw [htr, genDs_append]
    by_cases hg : (lifeDel st.gen Msg.initialized true).gen = g
    · have hgg : st.gen = g := hg
      rw [genDs_single_eq hg, ← hgg, hnil, List.nil_append]
      rfl
    · rw [genDs_single_ne hg, List.append_nil]
      exact hInv.noEnvB hrev' g
  · intro g hg1' hglt
    have hA : (pushDel st (lifeDel st.gen Msg.initialized true)).gen = st.gen := rfl
    have hne2 : (lifeDel st.gen Msg.initialized true).gen ≠ g := by
      intro hx
      have hB : st.gen = g := hx
      omega
    rw [htr, genDs_append, genDs_single_ne hne2, List.append_nil]
    exact hInv.endedStopped g hg1' hglt
  · intro hcl' hio'
    have hio2 : st.inboxOn = true := hlive hcl'
    have hio3 : st.inboxOn = false := hio'
    rw [hio2] at hio3
    cases hio3
  · intro d hd
    rw [htr, List.mem_append] at hd
    rcases hd with hd | hd
    · exact hInv.noPill d hd
    · rw [List.mem_singleton] at hd
      subst hd
      rfl
  · intro hMw d hd hdmw
    rw [htr, List.mem_append] at hd
    rcases hd with hd | hd
    · exact hInv.mwStopped hMw d hd hdmw
    · rw [List.mem_singleton] at hd
      subst hd
      cases hdmw

theorem cleanup_traceInv (cfg : Cfg) (st : ProcState) (w : Bool)
    (hInv : TraceInv cfg st)
    (hlive : st.cleanedUp = true → st.inboxOn = true)
    (hg1 : 1 ≤ st.gen)
    (hne : genDs st.gen st.trace ≠ []) :
    TraceInv cfg (cleanup cfg st w) ∧
    (cleanup cfg st w).cleanedUp = true ∧
    (cleanup cfg st w).trace = st.trace ++ [lifeDel st.gen Msg.stopped true] ∧
    (cleanup cfg st w).events = st.events ++ [Event.actorStopped] ∧
    (cleanup cfg st w).gen = st.gen ∧
    (cleanup cfg st w).restarts = st.restarts ∧
    (cleanup cfg st w).inboxOn = false ∧
    (cleanup cfg st w).revived = st.revived ∧
    (cleanup cfg st w).stalled = st.stalled ∧
    (cleanup cfg st w).mbuffer = st.mbuffer := by
  obtain ⟨htr2, hcl2, hev2, hgen2, hres2, hio2, hrev2, hstl2, hmb2⟩ :
      (cleanup cfg st w).trace = st.trace ++ [lifeDel st.gen Msg.stopped true] ∧
      (cleanup cfg st w).cleanedUp = true ∧
      (cleanup cfg st w).events = st.events ++ [Event.actorStopped] ∧
      (cleanup cfg st w).gen = st.gen ∧
      (cleanup cfg st w).restarts = st.restarts ∧
      (cleanup cfg st w).inboxOn = false ∧
      (cleanup cfg st w).revived = st.revived ∧
      (cleanup cfg st w).stalled = st.stalled ∧
      (cleanup cfg st w).mbuffer = st.mbuffer := by
    cases w <;> exact ⟨rfl, rfl, rfl, rfl, rfl, rfl, rfl, rfl, rfl⟩
  refine ⟨?_, hcl2, htr2, hev2, hgen2, hres2, hio2, hrev2, hstl2, hmb2⟩
  have hpush := TraceInv_push_life cfg st Msg.stopped true hInv hlive hg1 hne
    rfl (fun _ => rfl)
  have htp : (pushDel st (lifeDel st.gen Msg.stopped true)).trace
      = st.trace ++ [lifeDel st.gen Msg.stopped true] := rfl
  constructor
  · intro d hd
    rw [htr2, ← htp] at hd
    have h := hpush.genBounds d hd
    rw [hgen2]
    exact h
  · intro g
    have h := hpush.headAll g
    rw [htp] at h
    rw [htr2]
    exact h
  · intro hrev g
    rw [hrev2] at hrev
    have h := hpush.noEnvB hrev g
    rw [htp] at h
    rw [htr2]
    exact h
  · intro g hg1' hglt
    rw [hgen2] at hglt
    have h := hpush.endedStopped g hg1' hglt
    rw [htp] at h
    rw [htr2]
    exact h
  · intro _ _ g hg1' hgle
    rw [htr2]
    rw [hgen2] at hgle
    by_cases hg : g < st.gen
    · have hold := hInv.endedStopped g hg1' hg
      have hne2 : (lifeDel st.gen Msg.stopped true).gen ≠ g := by
        intro hx
        have hB : st.gen = g := hx
        omega
      rw [genDs_append, genDs_single_ne hne2, List.append_nil]
      exact hold
    · have hgg : g = st.gen := by omega
      rw [hgg, genDs_append,
        genDs_single_eq (show (lifeDel st.gen Msg.stopped true).gen = st.gen from rfl),
        endsStopped_concat]
      rfl
  · intro d hd
    rw [htr2, List.mem_append] at hd
    rcases hd with hd | hd
    · exact hInv.noPill d hd
    · rw [List.mem_singleton] at hd
      subst hd
      rfl
  · intro hMw d hd hdmw
    rw [htr2, List.mem_append] at hd
    rcases hd with hd | hd
    · exact hInv.mwStopped hMw d hd hdmw
    · rw [List.mem_singleton] at hd
      subst hd
      cases hdmw

theorem Inv_push_env (cfg : Cfg) (st : ProcState) (e : Envelope)
    (hInv : Inv cfg st)
    (hlive : st.cleanedUp = true → st.inboxOn = true)
    (hg1 : 1 ≤ st.gen)
    (hne : genDs st.gen st.trace ≠ [])
    (hmark : st.revived = false → hasStartedMark (genDs st.gen st.trace) = true)
    (hp : e.msg.isPill = false) :
    Inv cfg (pushDel st (envDel cfg st.gen e)) :=
  ⟨TraceInv_push_env cfg st e hInv.tr hlive hg1 hne hmark hp, hInv.restartsLe⟩

theorem Inv_cleanup (cfg : Cfg) (st : ProcState) (w : Bool)
    (hInv : Inv cfg st)
    (hlive : st.cleanedUp = true → st.inboxOn = true)
    (hg1 : 1 ≤ st.gen)
    (hne : genDs st.gen st.trace ≠ []) :
    Inv cfg (cleanup cfg st w) ∧ (cleanup cfg st w).cleanedUp = true ∧
    (cleanup cfg st w).inboxOn = false ∧ (cleanup cfg st w).gen = st.gen ∧
    genDs (cleanup cfg st w).gen (cleanup cfg st w).trace ≠ [] := by
  obtain ⟨hTI, hcl2, htr2, hev2, hgen2, hres2, hio2, hrev2, hstl2, hmb2⟩ :=
    cleanup_traceInv cfg st w hInv.tr hlive hg1 hne
  refine ⟨⟨hTI, ?_⟩, hcl2, hio2, hgen2, ?_⟩
  · rw [hres2]
    exact hInv.restartsLe
  · rw [hgen2, htr2, genDs_append]
    exact append_ne_nil_left _ hne

theorem invokeLoop_cons_nonpill (cfg : Cfg) (st : ProcState) (e : Envelope)
    (es : List Envelope) (hp : e.msg.isPill = false) :
    invokeLoop cfg st (e :: es) =
      match invokeMsg cfg st e with
      | .ok st1 => invokeLoop cfg st1 es
      | .error (v, st1) => .panicked st1 v es := by
  cases e with
  | mk m s =>
    cases m with
    | pill g w => simp [Msg.isPill] at hp
    | user n => rfl
    | initialized => rfl
    | started => rfl
    | stopped => rfl

theorem runRemainder_post (cfg : Cfg) :
    ∀ (l : List Envelope) (st : ProcState),
      Inv cfg st → LiveOK st → CurOK st →
      (match runRemainder cfg st l with
       | .ok st1 => Inv cfg st1 ∧ st1.gen = st.gen ∧
           st1.cleanedUp = st.cleanedUp ∧ st1.inboxOn = st.inboxOn ∧
           st1.revived = st.revived ∧ st1.stalled = st.stalled ∧
           genDs st1.gen st1.trace ≠ [] ∧
           (st1.revived = false → hasStartedMark (genDs st1.gen st1.trace) = true) ∧
           st1.events = st.events ∧ st1.restarts = st.restarts ∧
           st1.mbuffer = st.mbuffer
       | .error p => Inv cfg p.2 ∧ p.2.gen = st.gen ∧
           p.2.cleanedUp = st.cleanedUp ∧ p.2.inboxOn = st.inboxOn ∧
           p.2.revived = st.revived ∧ p.2.stalled = st.stalled ∧
           genDs p.2.gen p.2.trace ≠ [] ∧
           (p.2.revived = false → hasStartedMark (genDs p.2.gen p.2.trace) = true) ∧
           p.2.events = st.events ∧ p.2.restarts = st.restarts) := by
  intro l
  induction l with
  | nil =>
    intro st hInv hlive hcur
    exact ⟨hInv, rfl, rfl, rfl, rfl, rfl, hcur.2.1, hcur.2.2, rfl, rfl, rfl⟩
  | cons e es ih =>
    intro st hInv hlive hcur
    have hlive1 : st.cleanedUp = true → st.inboxOn = true := fun h => (hlive h).1
    rcases invokeMsg_cases cfg st e with ⟨hp, heq⟩ | ⟨hp, hb, heq⟩ | ⟨v, hp, hb, heq⟩
    · have hstep : runRemainder cfg st (e :: es) = runRemainder cfg st es := by
        simp only [runRemainder, heq]
      rw [hstep]
      exact ih st hInv hlive hcur
    · have hstep : runRemainder cfg st (e :: es) =
          runRemainder cfg (pushDel st (envDel cfg st.gen e)) es := by
        simp only [runRemainder, heq]
      rw [hstep]
      exact ih (pushDel st (envDel cfg st.gen e))
        (Inv_push_env cfg st e hInv hlive1 hcur.1 hcur.2.1 hcur.2.2 hp)
        hlive
        ⟨hcur.1, genDs_ne_push st _ hcur.2.1, fun hrev => mark_push st _ (hcur.2.2 hrev)⟩
    · have hstep : runRemainder cfg st (e :: es) =
          .error (v, pushDel st (envDel cfg st.gen e)) := by
        simp only [runRemainder, heq]
      rw [hstep]
      exact ⟨Inv_push_env cfg st e hInv hlive1 hcur.1 hcur.2.1 hcur.2.2 hp,
        rfl, rfl, rfl, rfl, rfl,
        genDs_ne_push st _ hcur.2.1,
        fun hrev => mark_push st _ (hcur.2.2 hrev), rfl, rfl⟩

theorem invokeLoop_post (cfg : Cfg) :
    ∀ (l : List Envelope) (st : ProcState),
      Inv cfg st → LiveOK st → CurOK st →
      LoopPost cfg st (invokeLoop cfg st l) := by
  intro l
  induction l with
  | nil =>
    intro st hInv hlive hcur
    exact ⟨hInv, rfl, rfl, rfl, rfl, rfl, hcur.2.1, hcur.2.2, rfl, rfl, rfl⟩
  | cons e es ih =>
    intro st hInv hlive hcur
    have hlive1 : st.cleanedUp = true → st.inboxOn = true := fun h => (hlive h).1
    by_cases hp : e.msg.isPill = true
    · obtain ⟨g, w, hm⟩ : ∃ g w, e.msg = Msg.pill g w := by
        cases hmm : e.msg <;> simp [Msg.isPill, hmm] at hp ⊢
      cases e with
      | mk m s =>
        simp only at hm
        subst hm
        cases g with
        | true =>
          have hpost := runRemainder_post cfg (⟨Msg.pill true w, s⟩ :: es) st
            hInv hlive hcur
          cases hrr : runRemainder cfg st (⟨Msg.pill true w, s⟩ :: es) with
          | ok st1 =>
            rw [hrr] at hpost
            have hloop : invokeLoop cfg st (⟨Msg.pill true w, s⟩ :: es) =
                .stop (cleanup cfg st1 w) := by
              simp [invokeLoop, hrr]
            rw [hloop]
            obtain ⟨hInv1, hgen1, hcl1, hio1, hrev1, hst1, hne1, hmk1, _, _, _⟩ := hpost
            have hlive2 : st1.cleanedUp = true → st1.inboxOn = true := by
              intro h
              rw [hcl1] at h
              rw [hio1]
              exact (hlive h).1
            have hg1' : 1 ≤ st1.gen := by
              rw [hgen1]
              exact hcur.1
            obtain ⟨hI2, hc2, hio2', hg2, hne2⟩ :=
              Inv_cleanup cfg st1 w hInv1 hlive2 hg1' hne1
            exact ⟨hI2, hc2, hio2', hg2.trans hgen1, hne2⟩
          | error p =>
            rw [hrr] at hpost
            cases p with
            | mk v st1 =>
              have hloop : invokeLoop cfg st (⟨Msg.pill true w, s⟩ :: es) =
                  .panicked st1 v es := by
                simp [invokeLoop, hrr]
              rw [hloop]
              obtain ⟨hInv1, hgen1, hcl1, hio1, hrev1, hst1, hne1, hmk1, hev1, hres1⟩ :=
                hpost
              exact ⟨hInv1, hgen1, hcl1, hio1, hrev1, hst1, hne1, hmk1, hev1, hres1⟩
        | false =>
          have hloop : invokeLoop cfg st (⟨Msg.pill false w, s⟩ :: es) =
              .stop (cleanup cfg st w) := rfl
          rw [hloop]
          obtain ⟨hI2, hc2, hio2', hg2, hne2⟩ :=
            Inv_cleanup cfg st w hInv hlive1 hcur.1 hcur.2.1
          exact ⟨hI2, hc2, hio2', hg2, hne2⟩
    · have hp' : e.msg.isPill = false := by simpa using hp
      rw [invokeLoop_cons_nonpill cfg st e es hp']
      rcases invokeMsg_cases cfg st e with ⟨hp2, _⟩ | ⟨_, _, heq⟩ | ⟨v, _, _, heq⟩
      · rw [hp'] at hp2
        cases hp2
      · rw [heq]
        exact ih (pushDel st (envDel cfg st.gen e))
          (Inv_push_env cfg st e hInv hlive1 hcur.1 hcur.2.1 hcur.2.2 hp')
          hlive
          ⟨hcur.1, genDs_ne_push st _ hcur.2.1, fun hrev => mark_push st _ (hcur.2.2 hrev)⟩
      · rw [heq]
        exact ⟨Inv_push_env cfg st e hInv hlive1 hcur.1 hcur.2.1 hcur.2.2 hp',
          rfl, rfl, rfl, rfl, rfl,
          genDs_ne_push st _ hcur.2.1,
          fun hrev => mark_push st _ (hcur.2.2 hrev), rfl, rfl⟩

theorem TraceInv_of_eq (cfg : Cfg) (a b : ProcState) (h : TraceInv cfg a)
    (ht : b.trace = a.trace) (hg : b.gen = a.gen)
    (hcs : b.cleanedUp = true → b.inboxOn = false →
      a.cleanedUp = true ∧ a.inboxOn = false)
    (hrv : b.revived = false → a.revived = false) :
    TraceInv cfg b := by
  constructor
  · intro d hd
    rw [ht] at hd
    rw [hg]
    exact h.genBounds d hd
  · intro g
    rw [ht]
    exact h.headAll g
  · intro hrev g
    rw [ht]
    exact h.noEnvB (hrv hrev) g
  · intro g hg1 hlt
    rw [ht]
    rw [hg] at hlt
    exact h.endedStopped g hg1 hlt
  · intro hcl hio g hg1 hle
    rw [ht]
    rw [hg] at hle
    obtain ⟨hca, hia⟩ := hcs hcl hio
    exact h.cleanedStopped hca hia g hg1 hle
  · intro d hd
    rw [ht] at hd
    exact h.noPill d hd
  · intro hm d hd
    rw [ht] at hd
    exact h.mwStopped hm d hd

theorem Inv_of_eq (cfg : Cfg) (a b : ProcState) (h : Inv cfg a)
    (ht : b.trace = a.trace) (hg : b.gen = a.gen)
    (hcs : b.cleanedUp = true → b.inboxOn = false →
      a.cleanedUp = true ∧ a.inboxOn = false)
    (hrv : b.revived = false → a.revived = false)
    (hr : b.restarts = a.restarts) :
    Inv cfg b := by
  refine ⟨TraceInv_of_eq cfg a b h.tr ht hg hcs hrv, ?_⟩
  rw [hr]
  exact h.restartsLe

theorem exec_post (cfg : Cfg) :
    ∀ (fuel : Nat) (c : Call) (st : ProcState),
      Pre cfg c st →
      Inv cfg (exec cfg fuel c st) ∧ PostOK (exec cfg fuel c st) ∧
        st.gen ≤ (exec cfg fuel c st).gen := by
  intro fuel
  induction fuel with
  | zero =>
    intro c st hpre
    cases c with
    | invoke msgs =>
      obtain ⟨hInv, hlive, hcur⟩ := hpre
      refine ⟨Inv_of_eq cfg st _ hInv rfl rfl (fun h1 h2 => ⟨h1, h2⟩) (fun h => h) rfl,
        ⟨?_, ?_, ?_, ?_⟩, le_refl _⟩
      · intro h1 _
        exact (hlive h1).2
      · intro _
        exact hcur.1
      · intro _
        exact hcur.2.1
      · intro _ hs
        simp [exec] at hs
    | tryRestart v =>
      obtain ⟨hInv, hlive, hg1, hends⟩ := hpre
      refine ⟨Inv_of_eq cfg st _ hInv rfl rfl (fun h1 h2 => ⟨h1, h2⟩) (fun h => h) rfl,
        ⟨?_, ?_, ?_, ?_⟩, le_refl _⟩
      · intro h1 _
        exact (hlive h1).2
      · intro _
        exact hg1
      · intro _
        exact endsStopped_nonempty hends
      · intro _ hs
        simp [exec] at hs
    | start =>
      obtain ⟨hInv, hlive, hdis, hioc⟩ := hpre
      refine ⟨Inv_of_eq cfg st _ hInv rfl rfl (fun h1 h2 => ⟨h1, h2⟩) (fun h => h) rfl,
        ⟨?_, ?_, ?_, ?_⟩, le_refl _⟩
      · intro h1 _
        exact (hlive h1).2
      · intro h2
        exact hioc h2
      · intro h1
        rcases hdis with h0 | he
        · exact absurd (show (1 : Nat) ≤ st.gen from h1) (by omega)
        · exact endsStopped_nonempty he
      · intro _ hs
        simp [exec] at hs
  | succ f ih =>
    intro c st hpre
    cases c with
    | invoke msgs =>
      obtain ⟨hInv, hlive, hcur⟩ := hpre
      have hpost := invokeLoop_post cfg msgs st hInv hlive hcur
      cases hL : invokeLoop cfg st msgs with
      | done st1 =>
        rw [hL] at hpost
        have hx : exec cfg (f + 1) (Call.invoke msgs) st = st1 := by
          simp only [exec, hL]
        rw [hx]
        obtain ⟨hInv1, hgen1, hcl1, hio1, hrev1, hst1, hne1, hmk1, _, _, _⟩ := hpost
        refine ⟨hInv1, ⟨?_, ?_, ?_, ?_⟩, ?_⟩
        · intro h1 _
          rw [hcl1] at h1
          rw [hrev1]
          exact (hlive h1).2
        · intro _
          rw [hgen1]
          exact hcur.1
        · intro _
          exact hne1
        · intro _ _ hrev _
          exact hmk1 hrev
        · omega
      | stop st1 =>
        rw [hL] at hpost
        have hx : exec cfg (f + 1) (Call.invoke msgs) st = st1 := by
          simp only [exec, hL]
        rw [hx]
        obtain ⟨hInv1, hcl1, hio1, hgen1, hne1⟩ := hpost
        refine ⟨hInv1, ⟨?_, ?_, ?_, ?_⟩, ?_⟩
        · intro _ h2
          rw [hio1] at h2
          cases h2
        · intro h2
          rw [hio1] at h2
          cases h2
        · intro _
          exact hne1
        · intro hcf
          rw [hcl1] at hcf
          cases hcf
        · omega
      | panicked st1 v buf =>
        rw [hL] at hpost
        obtain ⟨hInv1, hgen1, hcl1, hio1, hrev1, hst1, hne1, hmk1, _, _⟩ := hpost
        have hx : exec cfg (f + 1) (Call.invoke msgs) st =
            exec cfg f (Call.tryRestart v) (recoverFrom st1 buf) := by
          simp only [exec, hL]
        rw [hx]
        have hlive2 : st1.cleanedUp = true → st1.inboxOn = true := by
          intro h
          rw [hcl1] at h
          rw [hio1]
          exact (hlive h).1
        have hg1' : 1 ≤ st1.gen := by
          rw [hgen1]
          exact hcur.1
        have hpre2 : Pre cfg (Call.tryRestart v) (recoverFrom st1 buf) := by
          refine ⟨⟨?_, hInv1.restartsLe⟩, ?_, hg1', ?_⟩
          · exact TraceInv_of_eq cfg
              (pushDel st1 (lifeDel st1.gen Msg.stopped false)) _
              (TraceInv_push_life cfg st1 Msg.stopped false hInv1.tr hlive2 hg1'
                hne1 rfl (fun _ => rfl))
              rfl rfl (fun h1 h2 => ⟨h1, h2⟩) (fun h => h)
          · intro h
            have h1 : st1.cleanedUp = true := h
            rw [hcl1] at h1
            have h2 := hlive h1
            refine ⟨?_, ?_⟩
            · show st1.inboxOn = true
              rw [hio1]
              exact h2.1
            · show st1.revived = true
              rw [hrev1]
              exact h2.2
          · show endsStopped (genDs st1.gen
              (st1.trace ++ [lifeDel st1.gen Msg.stopped false])) = true
            rw [genDs_append,
              genDs_single_eq
                (show (lifeDel st1.gen Msg.stopped false).gen = st1.gen from rfl),
              endsStopped_concat]
            rfl
        have hi := ih (Call.tryRestart v) (recoverFrom st1 buf) hpre2
        refine ⟨hi.1, hi.2.1, ?_⟩
        have h3 : st1.gen ≤ (exec cfg f (Call.tryRestart v) (recoverFrom st1 buf)).gen :=
          hi.2.2
        omega
    | tryRestart v =>
      obtain ⟨hInv, hlive, hg1, hends⟩ := hpre
      have hlive1 : st.cleanedUp = true → st.inboxOn = true := fun h => (hlive h).1
      cases v with
      | internalErr =>
        have hx : exec cfg (f + 1) (Call.tryRestart PanicVal.internalErr) st =
            exec cfg f Call.start
              { st with sleeps := st.sleeps ++ [cfg.restartDelay] } := rfl
        rw [hx]
        have hpre2 : Pre cfg Call.start
            { st with sleeps := st.sleeps ++ [cfg.restartDelay] } := by
          refine ⟨⟨?_, hInv.restartsLe⟩, hlive, Or.inr hends, fun _ => hg1⟩
          exact TraceInv_of_eq cfg st _ hInv.tr rfl rfl (fun h1 h2 => ⟨h1, h2⟩)
            (fun h => h)
        have hi := ih Call.start _ hpre2
        exact ⟨hi.1, hi.2.1, hi.2.2⟩
      | other n =>
        by_cases hr : st.restarts = cfg.maxRestarts
        · have hx : exec cfg (f + 1) (Call.tryRestart (PanicVal.other n)) st =
              cleanup cfg
                { st with events := st.events ++ [Event.actorMaxRestartsExceeded] }
                false := by
            simp only [exec]
            rw [if_pos hr]
          rw [hx]
          obtain ⟨hTI, hcl2, htr2, hev2, hgen2, hres2, hio2, hrev2, hstl2, hmb2⟩ :=
            cleanup_traceInv cfg
              { st with events := st.events ++ [Event.actorMaxRestartsExceeded] } false
              (TraceInv_of_eq cfg st _ hInv.tr rfl rfl (fun h1 h2 => ⟨h1, h2⟩)
                (fun h => h))
              hlive1 hg1 (endsStopped_nonempty hends)
          refine ⟨⟨hTI, ?_⟩, ⟨?_, ?_, ?_, ?_⟩, ?_⟩
          · rw [hres2]
            exact hInv.restartsLe
          · intro _ h2
            rw [hio2] at h2
            cases h2
          · intro h2
            rw [hio2] at h2
            cases h2
          · intro _
            rw [hgen2, htr2]
            show genDs st.gen (st.trace ++ [lifeDel st.gen Msg.stopped true]) ≠ []
            rw [genDs_append]
            exact append_ne_nil_left _ (endsStopped_nonempty hends)
          · intro hcf
            rw [hcl2] at hcf
            cases hcf
          · rw [hgen2]
        · have hx : exec cfg (f + 1) (Call.tryRestart (PanicVal.other n)) st =
              exec cfg f Call.start
                { st with restarts := st.restarts + 1,
                          events := st.events ++ [Event.actorRestarted (st.restarts + 1)],
                          sleeps := st.sleeps ++ [cfg.restartDelay] } := by
            simp only [exec]
            rw [if_neg hr]
          rw [hx]
          have hpre2 : Pre cfg Call.start
              { st with restarts := st.restarts + 1,
                        events := st.events ++ [Event.actorRestarted (st.restarts + 1)],
                        sleeps := st.sleeps ++ [cfg.restartDelay] } := by
            refine ⟨⟨?_, ?_⟩, hlive, Or.inr hends, fun _ => hg1⟩
            · exact TraceInv_of_eq cfg st _ hInv.tr rfl rfl (fun h1 h2 => ⟨h1, h2⟩)
                (fun h => h)
            · show st.restarts + 1 ≤ cfg.maxRestarts
              have h1 := hInv.restartsLe
              omega
          have hi := ih Call.start _ hpre2
          exact ⟨hi.1, hi.2.1, hi.2.2⟩
    | start =>
      obtain ⟨hInv, hlive, hdis, hioc⟩ := hpre
      have hlive1 : st.cleanedUp = true → st.inboxOn = true := fun h => (hlive h).1
      have hg1' : (1 : Nat) ≤ st.gen + 1 := by omega
      have hInv0 : TraceInv cfg { st with gen := st.gen + 1 } :=
        TraceInv_bump cfg st hInv.tr hlive1 hdis
      have hnil : genDs (st.gen + 1) st.trace = [] :=
        genDs_nil_of_lt (fun d hd => (hInv.tr.genBounds d hd).2) (by omega)
      have hInv1 : TraceInv cfg (pushDel { st with gen := st.gen + 1 }
          (lifeDel (st.gen + 1) Msg.initialized true)) :=
        TraceInv_push_init cfg { st with gen := st.gen + 1 } hInv0 hlive1 hg1' hnil
      have hsingle : genDs (st.gen + 1)
          (st.trace ++ [lifeDel (st.gen + 1) Msg.initialized true])
          = [lifeDel (st.gen + 1) Msg.initialized true] := by
        rw [genDs_append, hnil,
          genDs_single_eq
            (show (lifeDel (st.gen + 1) Msg.initialized true).gen = st.gen + 1 from rfl),
          List.nil_append]
      cases hbi : cfg.behavior (st.gen + 1) Msg.initialized with
      | some v =>
        have hx : exec cfg (f + 1) Call.start st =
            exec cfg f (Call.tryRestart v)
              (pushDel (pushDel { st with gen := st.gen + 1 }
                  (lifeDel (st.gen + 1) Msg.initialized true))
                (lifeDel (st.gen + 1) Msg.stopped false)) := by
          simp only [exec, hbi]
        rw [hx]
        have hpre2 : Pre cfg (Call.tryRestart v)
            (pushDel (pushDel { st with gen := st.gen + 1 }
                (lifeDel (st.gen + 1) Msg.initialized true))
              (lifeDel (st.gen + 1) Msg.stopped false)) := by
          refine ⟨⟨?_, hInv.restartsLe⟩, hlive, hg1', ?_⟩
          · exact TraceInv_push_life cfg
              (pushDel { st with gen := st.gen + 1 }
                (lifeDel (st.gen + 1) Msg.initialized true))
              Msg.stopped false hInv1 hlive1 hg1'
              (by
                show genDs (st.gen + 1)
                  (st.trace ++ [lifeDel (st.gen + 1) Msg.initialized true]) ≠ []
                rw [hsingle]
                simp)
              rfl (fun _ => rfl)
          · show endsStopped (genDs (st.gen + 1)
              ((st.trace ++ [lifeDel (st.gen + 1) Msg.initialized true])
                ++ [lifeDel (st.gen + 1) Msg.stopped false])) = true
            rw [genDs_append, hsingle,
              genDs_single_eq
                (show (lifeDel (st.gen + 1) Msg.stopped false).gen = st.gen + 1 from rfl),
              endsStopped_concat]
            rfl
        have hi := ih (Call.tryRestart v) _ hpre2
        refine ⟨hi.1, hi.2.1, ?_⟩
        have h4 : st.gen + 1 ≤ (exec cfg f (Call.tryRestart v)
            (pushDel (pushDel { st with gen := st.gen + 1 }
                (lifeDel (st.gen + 1) Msg.initialized true))
              (lifeDel (st.gen + 1) Msg.stopped false))).gen := hi.2.2
        omega
      | none =>
        have hsingle2 : genDs (st.gen + 1)
            ((st.trace ++ [lifeDel (st.gen + 1) Msg.initialized true])
              ++ [lifeDel (st.gen + 1) Msg.started true])
            = [lifeDel (st.gen + 1) Msg.initialized true,
               lifeDel (st.gen + 1) Msg.started true] := by
          rw [genDs_append, hsingle,
            genDs_single_eq
              (show (lifeDel (st.gen + 1) Msg.started true).gen = st.gen + 1 from rfl)]
          rfl
        have hInv3 : TraceInv cfg
            (pushDel
              { pushDel { st with gen := st.gen + 1 }
                  (lifeDel (st.gen + 1) Msg.initialized true) with
                events := st.events ++ [Event.actorInitialized] }
              (lifeDel (st.gen + 1) Msg.started true)) := by
          have := TraceInv_push_life cfg
            { pushDel { st with gen := st.gen + 1 }
                (lifeDel (st.gen + 1) Msg.initialized true) with
              events := st.events ++ [Event.actorInitialized] }
            Msg.started true
            (TraceInv_of_eq cfg (pushDel { st with gen := st.gen + 1 }
              (lifeDel (st.gen + 1) Msg.initialized true)) _ hInv1 rfl rfl
              (fun h1 h2 => ⟨h1, h2⟩) (fun h => h))
            hlive1 hg1'
            (by
              show genDs (st.gen + 1)
                (st.trace ++ [lifeDel (st.gen + 1) Msg.initialized true]) ≠ []
              rw [hsingle]
              simp)
            rfl (fun h => by cases h)
          exact this
        cases hbs : cfg.behavior (st.gen + 1) Msg.started with
        | some v =>
          have hx : exec cfg (f + 1) Call.start st =
              exec cfg f (Call.tryRestart v)
                (pushDel
                  (pushDel
                    { pushDel { st with gen := st.gen + 1 }
                        (lifeDel (st.gen + 1) Msg.initialized true) with
                      events := st.events ++ [Event.actorInitialized] }
                    (lifeDel (st.gen + 1) Msg.started true))
                  (lifeDel (st.gen + 1) Msg.stopped false)) := by
            simp only [exec, hbi, hbs, pushDel]
          rw [hx]
          have hpre2 : Pre cfg (Call.tryRestart v)
              (pushDel
                (pushDel
                  { pushDel { st with gen := st.gen + 1 }
                      (lifeDel (st.gen + 1) Msg.initialized true) with
                    events := st.events ++ [Event.actorInitialized] }
                  (lifeDel (st.gen + 1) Msg.started true))
                (lifeDel (st.gen + 1) Msg.stopped false)) := by
            refine ⟨⟨?_, hInv.restartsLe⟩, hlive, hg1', ?_⟩
            · exact TraceInv_push_life cfg
                (pushDel
                  { pushDel { st with gen := st.gen + 1 }
                      (lifeDel (st.gen + 1) Msg.initialized true) with
                    events := st.events ++ [Event.actorInitialized] }
                  (lifeDel (st.gen + 1) Msg.started true))
                Msg.stopped false hInv3 hlive1 hg1'
                (by
                  show genDs (st.gen + 1)
                    ((st.trace ++ [lifeDel (st.gen + 1) Msg.initialized true])
                      ++ [lifeDel (st.gen + 1) Msg.started true]) ≠ []
                  rw [hsingle2]
                  simp)
                rfl (fun _ => rfl)
            · show endsStopped (genDs (st.gen + 1)
                (((st.trace ++ [lifeDel (st.gen + 1) Msg.initialized true])
                  ++ [lifeDel (st.gen + 1) Msg.started true])
                  ++ [lifeDel (st.gen + 1) Msg.stopped false])) = true
              rw [genDs_append, hsingle2,
                genDs_single_eq
                  (show (lifeDel (st.gen + 1) Msg.stopped false).gen = st.gen + 1 from rfl),
                endsStopped_concat]
              rfl
          have hi := ih (Call.tryRestart v) _ hpre2
          refine ⟨hi.1, hi.2.1, ?_⟩
          have h4 : st.gen + 1 ≤ (exec cfg f (Call.tryRestart v)
              (pushDel
                (pushDel
                  { pushDel { st with gen := st.gen + 1 }
                      (lifeDel (st.gen + 1) Msg.initialized true) with
                    events := st.events ++ [Event.actorInitialized] }
                  (lifeDel (st.gen + 1) Msg.started true))
                (lifeDel (st.gen + 1) Msg.stopped false))).gen := hi.2.2
          omega
        | none =>
          have hInv4 : Inv cfg
              { pushDel
                  { pushDel { st with gen := st.gen + 1 }
                      (lifeDel (st.gen + 1) Msg.initialized true) with
                    events := st.events ++ [Event.actorInitialized] }
                  (lifeDel (st.gen + 1) Msg.started true) with
                events := (st.events ++ [Event.actorInitialized])
                  ++ [Event.actorStarted] } := by
            refine ⟨?_, hInv.restartsLe⟩
            exact TraceInv_of_eq cfg _ _ hInv3 rfl rfl (fun h1 h2 => ⟨h1, h2⟩)
              (fun h => h)
          have hne4 : genDs (st.gen + 1)
              ((st.trace ++ [lifeDel (st.gen + 1) Msg.initialized true])
                ++ [lifeDel (st.gen + 1) Msg.started true]) ≠ [] := by
            rw [hsingle2]
            simp
          have hmk4 : hasStartedMark (genDs (st.gen + 1)
              ((st.trace ++ [lifeDel (st.gen + 1) Msg.initialized true])
                ++ [lifeDel (st.gen + 1) Msg.started true])) = true := by
            rw [genDs_append, hsingle,
              genDs_single_eq
                (show (lifeDel (st.gen + 1) Msg.started true).gen = st.gen + 1 from rfl)]
            exact mark_concat_started _ _
          by_cases hmb : st.mbuffer.isEmpty = true
          · have hx : exec cfg (f + 1) Call.start st =
                { { pushDel
                      { pushDel { st with gen := st.gen + 1 }
                          (lifeDel (st.gen + 1) Msg.initialized true) with
                        events := st.events ++ [Event.actorInitialized] }
                      (lifeDel (st.gen + 1) Msg.started true) with
                    events := (st.events ++ [Event.actorInitialized])
                      ++ [Event.actorStarted] } with
                  inboxStarted := true, inboxOn := true,
                  revived := ({ pushDel
                      { pushDel { st with gen := st.gen + 1 }
                          (lifeDel (st.gen + 1) Msg.initialized true) with
                        events := st.events ++ [Event.actorInitialized] }
                      (lifeDel (st.gen + 1) Msg.started true) with
                    events := (st.events ++ [Event.actorInitialized])
                      ++ [Event.actorStarted] } : ProcState).revived ||
                    ({ pushDel
                        { pushDel { st with gen := st.gen + 1 }
                            (lifeDel (st.gen + 1) Msg.initialized true) with
                          events := st.events ++ [Event.actorInitialized] }
                        (lifeDel (st.gen + 1) Msg.started true) with
                      events := (st.events ++ [Event.actorInitialized])
                        ++ [Event.actorStarted] } : ProcState).cleanedUp } := by
              simp only [exec, hbi, hbs, pushDel]
              rw [if_pos hmb]
            rw [hx]
            refine ⟨⟨?_, ?_⟩, ⟨?_, ?_, ?_, ?_⟩, ?_⟩
            · exact TraceInv_of_eq cfg _ _ hInv4.tr rfl rfl
                (fun h1 h2 => by
                  have h2' : (true : Bool) = false := h2
                  cases h2')
                (fun h => by
                  have h' : (st.revived || st.cleanedUp) = false := h
                  exact bool_or_eq_false_left h')
            · exact hInv4.restartsLe
            · intro h1 _
              have h1' : st.cleanedUp = true := h1
              show (st.revived || st.cleanedUp) = true
              rw [h1', Bool.or_true]
            · intro _
              exact hg1'
            · intro _
              exact hne4
            · intro _ _ _ _
              exact hmk4
            · exact Nat.le_succ st.gen
          · have hx : exec cfg (f + 1) Call.start st =
                { { exec cfg f (Call.invoke st.mbuffer)
                      { pushDel
                          { pushDel { st with gen := st.gen + 1 }
                              (lifeDel (st.gen + 1) Msg.initialized true) with
                            events := st.events ++ [Event.actorInitialized] }
                          (lifeDel (st.gen + 1) Msg.started true) with
                        events := (st.events ++ [Event.actorInitialized])
                          ++ [Event.actorStarted] } with
                    mbuffer := [] } with
                  inboxStarted := true, inboxOn := true,
                  revived := ({ exec cfg f (Call.invoke st.mbuffer)
                      { pushDel
                          { pushDel { st with gen := st.gen + 1 }
                              (lifeDel (st.gen + 1) Msg.initialized true) with
                            events := st.events ++ [Event.actorInitialized] }
                          (lifeDel (st.gen + 1) Msg.started true) with
                        events := (st.events ++ [Event.actorInitialized])
                          ++ [Event.actorStarted] } with
                    mbuffer := [] } : ProcState).revived ||
                    ({ exec cfg f (Call.invoke st.mbuffer)
                        { pushDel
                            { pushDel { st with gen := st.gen + 1 }
                                (lifeDel (st.gen + 1) Msg.initialized true) with
                              events := st.events ++ [Event.actorInitialized] }
                            (lifeDel (st.gen + 1) Msg.started true) with
                          events := (st.events ++ [Event.actorInitialized])
                            ++ [Event.actorStarted] } with
                      mbuffer := [] } : ProcState).cleanedUp } := by
              simp only [exec, hbi, hbs, pushDel]
              rw [if_neg hmb]
            rw [hx]
            have hpre4 : Pre cfg (Call.invoke st.mbuffer)
                { pushDel
                    { pushDel { st with gen := st.gen + 1 }
                        (lifeDel (st.gen + 1) Msg.initialized true) with
                      events := st.events ++ [Event.actorInitialized] }
                    (lifeDel (st.gen + 1) Msg.started true) with
                  events := (st.events ++ [Event.actorInitialized])
                    ++ [Event.actorStarted] } := by
              refine ⟨hInv4, hlive, hg1', hne4, fun _ => hmk4⟩
            have hi := ih (Call.invoke st.mbuffer) _ hpre4
            have hg5 : st.gen + 1 ≤ (exec cfg f (Call.invoke st.mbuffer)
                { pushDel
                    { pushDel { st with gen := st.gen + 1 }
                        (lifeDel (st.gen + 1) Msg.initialized true) with
                      events := st.events ++ [Event.actorInitialized] }
                    (lifeDel (st.gen + 1) Msg.started true) with
                  events := (st.events ++ [Event.actorInitialized])
                    ++ [Event.actorStarted] }).gen := hi.2.2
            have hgen1 : 1 ≤ (exec cfg f (Call.invoke st.mbuffer)
                { pushDel
                    { pushDel { st with gen := st.gen + 1 }
                        (lifeDel (st.gen + 1) Msg.initialized true) with
                      events := st.events ++ [Event.actorInitialized] }
                    (lifeDel (st.gen + 1) Msg.started true) with
                  events := (st.events ++ [Event.actorInitialized])
                    ++ [Event.actorStarted] }).gen := by omega
            refine ⟨⟨?_, ?_⟩, ⟨?_, ?_, ?_, ?_⟩, ?_⟩
            · exact TraceInv_of_eq cfg _ _ hi.1.tr rfl rfl
                (fun h1 h2 => by
                  have h2' : (true : Bool) = false := h2
                  cases h2')
                (fun h => by
                  exact bool_or_eq_false_left h)
            · exact hi.1.restartsLe
            · intro h1 _
              have h1' : (exec cfg f (Call.invoke st.mbuffer)
                  { pushDel
                      { pushDel { st with gen := st.gen + 1 }
                          (lifeDel (st.gen + 1) Msg.initialized true) with
                        events := st.events ++ [Event.actorInitialized] }
                      (lifeDel (st.gen + 1) Msg.started true) with
                    events := (st.events ++ [Event.actorInitialized])
                      ++ [Event.actorStarted] }).cleanedUp = true := h1
              show ((exec cfg f (Call.invoke st.mbuffer)
                  { pushDel
                      { pushDel { st with gen := st.gen + 1 }
                          (lifeDel (st.gen + 1) Msg.initialized true) with
                        events := st.events ++ [Event.actorInitialized] }
                      (lifeDel (st.gen + 1) Msg.started true) with
                    events := (st.events ++ [Event.actorInitialized])
                      ++ [Event.actorStarted] }).revived ||
                (exec cfg f (Call.invoke st.mbuffer)
                  { pushDel
                      { pushDel { st with gen := st.gen + 1 }
                          (lifeDel (st.gen + 1) Msg.initialized true) with
                        events := st.events ++ [Event.actorInitialized] }
                      (lifeDel (st.gen + 1) Msg.started true) with
                    events := (st.events ++ [Event.actorInitialized])
                      ++ [Event.actorStarted] }).cleanedUp) = true
              rw [h1', Bool.or_true]
            · intro _
              exact hgen1
            · intro _
              exact hi.2.1.2.2.1 hgen1
            · intro hcf hs hrev _
              exact hi.2.1.2.2.2 hcf hs (bool_or_eq_false_left hrev) hgen1
            · show st.gen ≤ (exec cfg f (Call.invoke st.mbuffer)
                  { pushDel
                      { pushDel { st with gen := st.gen + 1 }
                          (lifeDel (st.gen + 1) Msg.initialized true) with
                        events := st.events ++ [Event.actorInitialized] }
                      (lifeDel (st.gen + 1) Msg.started true) with
                    events := (st.events ++ [Event.actorInitialized])
                      ++ [Event.actorStarted] }).gen
              omega

theorem initState_inv (cfg : Cfg) : Inv cfg initState := by
  refine ⟨⟨?_, ?_, ?_, ?_, ?_, ?_, ?_⟩, Nat.zero_le _⟩
  · intro d hd
    simp [initState] at hd
  · intro g
    rfl
  · intro _ g
    rfl
  · intro g h1 h2
    simp [initState] at h2
  · intro h
    cases h
  · intro d hd
    simp [initState] at hd
  · intro _ d hd
    simp [initState] at hd

theorem runProcess_inv (cfg : Cfg) (fuel : Nat) (batches : List (List Envelope)) :
    Inv cfg (runProcess cfg fuel batches) := by
  have hpre0 : Pre cfg Call.start initState := by
    refine ⟨initState_inv cfg, ?_, Or.inl rfl, ?_⟩
    · intro h
      cases h
    · intro h
      cases h
  have h0 := exec_post cfg fuel Call.start initState hpre0
  suffices h : ∀ (bs : List (List Envelope)) (s : ProcState),
      Inv cfg s → PostOK s →
      Inv cfg (bs.foldl (stepBatch cfg fuel) s) ∧
        PostOK (bs.foldl (stepBatch cfg fuel) s) by
    exact (h batches _ h0.1 h0.2.1).1
  intro bs
  induction bs with
  | nil =>
    intro s h1 h2
    exact ⟨h1, h2⟩
  | cons b bs ih =>
    intro s h1 h2
    simp only [List.foldl]
    by_cases hg : (s.inboxOn && !s.stalled) = true
    · have hstep : stepBatch cfg fuel s b = exec cfg fuel (Call.invoke b) s := by
        simp only [stepBatch]
        rw [if_pos hg]
      rw [Bool.and_eq_true] at hg
      obtain ⟨hio, hst0⟩ := hg
      have hst : s.stalled = false := by
        cases hq : s.stalled with
        | false => rfl
        | true =>
          rw [hq] at hst0
          exact absurd hst0 (by decide)
      rw [hstep]
      have hg1 : 1 ≤ s.gen := h2.2.1 hio
      have hpre1 : Pre cfg (Call.invoke b) s := by
        refine ⟨h1, ?_, hg1, h2.2.2.1 hg1, ?_⟩
        · intro hc
          exact ⟨hio, h2.1 hc hio⟩
        · intro hrev
          by_cases hcc : s.cleanedUp = true
          · have hq2 := h2.1 hcc hio
            rw [hrev] at hq2
            cases hq2
          · have hcc' : s.cleanedUp = false := by
              cases hq : s.cleanedUp with
              | false => rfl
              | true => exact absurd hq hcc
            exact h2.2.2.2 hcc' hst hrev hg1
      have hp := exec_post cfg fuel (Call.invoke b) s hpre1
      exact ih _ hp.1 hp.2.1
    · have hstep : stepBatch cfg fuel s b = s := by
        simp only [stepBatch]
        rw [if_neg hg]
      rw [hstep]
      exact ih s h1 h2

/-! ### C3: the restart counter bound -/

/-- Counterexample to claim C3: the event is NOT broadcast exactly once.  With
`MaxRestarts = 1` and a receiver that panics on every user message, the batch
`[user 1, user 2]` drives the process to max restarts inside `Start`'s
`mbuffer` replay; `Start` then resumes after the recovered panic and restarts
the stopped inbox unconditionally, so the next batch `[user 3]` is still
delivered, panics again, re-enters `tryRestart` at `restarts = MaxRestarts`,
and broadcasts `ActorMaxRestartsExceededEvent` a second time in the same
run. -/
theorem exceeded_twice_cex :
    countExceeded (runProcess panicUsersCfg 10 [[uEnv 1, uEnv 2], [uEnv 3]]).events
      = 2 ∧ ¬ ((2 : Nat) ≤ 1) := by
  exact ⟨by decide, by decide⟩

/-- Claim C3 amended: for every process the restart counter never exceeds
`MaxRestarts`; each time a non-`InternalError` panic enters `tryRestart` while
`restarts = MaxRestarts`, the process broadcasts
`ActorMaxRestartsExceededEvent` once (followed only by the `ActorStoppedEvent`
of the cleanup) and performs cleanup without restarting again (restart counter
and receiver generation are left unchanged).  The broadcast is once per such
entry, not once per run: after a cleanup that happens inside `Start`'s
`mbuffer` replay, the tail of `Start` revives the stopped inbox and a later
batch can repeat the whole sequence. -/
theorem restarts_never_exceed_max :
    (∀ (cfg : Cfg) (fuel : Nat) (batches : List (List Envelope)),
      (runProcess cfg fuel batches).restarts ≤ cfg.maxRestarts) ∧
    (∀ (cfg : Cfg) (fuel n : Nat) (st : ProcState),
      st.restarts = cfg.maxRestarts →
      (exec cfg (fuel + 1) (Call.tryRestart (PanicVal.other n)) st).cleanedUp = true ∧
      (exec cfg (fuel + 1) (Call.tryRestart (PanicVal.other n)) st).restarts
        = st.restarts ∧
      (exec cfg (fuel + 1) (Call.tryRestart (PanicVal.other n)) st).gen = st.gen ∧
      (exec cfg (fuel + 1) (Call.tryRestart (PanicVal.other n)) st).events =
        st.events ++ [Event.actorMaxRestartsExceeded, Event.actorStopped]) := by
  constructor
  · intro cfg fuel batches
    exact (runProcess_inv cfg fuel batches).restartsLe
  · intro cfg fuel n st hr
    have hx : exec cfg (fuel + 1) (Call.tryRestart (PanicVal.other n)) st =
        cleanup cfg
          { st with events := st.events ++ [Event.actorMaxRestartsExceeded] }
          false := by
      simp only [exec]
      rw [if_pos hr]
    rw [hx]
    refine ⟨rfl, rfl, rfl, ?_⟩
    show (st.events ++ [Event.actorMaxRestartsExceeded]) ++ [Event.actorStopped]
      = st.events ++ [Event.actorMaxRestartsExceeded, Event.actorStopped]
    simp

/-- Witness for C3 at a concrete input. -/
theorem restarts_never_exceed_max_witness :
    (({ initState with restarts := 3 } : ProcState).restarts
      = noPanicCfg.maxRestarts) ∧
    (exec noPanicCfg 1 (Call.tryRestart (PanicVal.other 0))
      { initState with restarts := 3 }).cleanedUp = true := by
  have h := restarts_never_exceed_max.2 noPanicCfg 0 0
    { initState with restarts := 3 } (by decide)
  exact ⟨by decide, h.1⟩

/-! ### C2: lifecycle ordering -/

/-- Counterexample to claim C2: `Stopped` is NOT always the last message a
receiver generation observes.  With `MaxRestarts = 1` and a receiver that
panics on `user 1` and `user 2`, the batches `[[user 1, user 2], [user 3]]`
drive generation 2 to terminal cleanup inside `Start`'s `mbuffer` replay
(its trace ends `..., Stopped, Stopped` at that point); `Start` then resumes
and restarts the stopped inbox, so the envelope `user 3` of the next batch is
delivered to generation 2 AFTER its terminal `Stopped`. -/
theorem stopped_not_last_cex :
    (runProcess panicU12Cfg 10 [[uEnv 1, uEnv 2], [uEnv 3]]).cleanedUp = true ∧
    (runProcess panicU12Cfg 10 [[uEnv 1, uEnv 2], [uEnv 3]]).gen = 2 ∧
    endsStopped (genDs 2
      (runProcess panicU12Cfg 10 [[uEnv 1, uEnv 2], [uEnv 3]]).trace) = false ∧
    ((genDs 2 (runProcess panicU12Cfg 10 [[uEnv 1, uEnv 2], [uEnv 3]]).trace).map
        (fun d => d.msg)) =
      [Msg.initialized, Msg.started, Msg.user 2, Msg.stopped, Msg.stopped,
        Msg.user 3] := by
  exact ⟨by decide, by decide, by decide, by decide⟩

/-- Claim C2 amended: for every spawned process (any behavior, any batches),
every receiver generation observes `Initialized` first; in any run in which no
stopped inbox is revived after a cleanup (`revived = false`) no user
(envelope) message is delivered before the lifecycle `Started`; for every
generation superseded by a restart the last message delivered to it is
`Stopped`; and once the process has been cleaned up with its inbox down, the
last message delivered to every generation is `Stopped`.  The revival proviso
is necessary: when cleanup happens inside `Start`'s `mbuffer` replay, `Start`
restarts the stopped inbox and later envelopes arrive after the terminal
`Stopped`. -/
theorem lifecycle_order (cfg : Cfg) (fuel : Nat) (batches : List (List Envelope))
    (g : Nat) :
    headInit (genDs g (runProcess cfg fuel batches).trace) = true ∧
    ((runProcess cfg fuel batches).revived = false →
      lifecycleOrdered (genDs g (runProcess cfg fuel batches).trace) = true) ∧
    (1 ≤ g → g < (runProcess cfg fuel batches).gen →
      endsStopped (genDs g (runProcess cfg fuel batches).trace) = true) ∧
    ((runProcess cfg fuel batches).cleanedUp = true →
      (runProcess cfg fuel batches).inboxOn = false → 1 ≤ g →
      g ≤ (runProcess cfg fuel batches).gen →
      endsStopped (genDs g (runProcess cfg fuel batches).trace) = true) := by
  have h := runProcess_inv cfg fuel batches
  refine ⟨h.tr.headAll g, ?_, fun h1 h2 => h.tr.endedStopped g h1 h2,
    fun hc hio h1 h2 => h.tr.cleanedStopped hc hio g h1 h2⟩
  intro hrev
  have h1 := h.tr.headAll g
  have h2 := h.tr.noEnvB hrev g
  simp only [lifecycleOrdered, Bool.and_eq_true]
  exact ⟨h1, h2⟩

/-- Witness for the amended C2 theorem at a concrete input (a gracefully
poisoned run, in which no revival occurs). -/
theorem lifecycle_order_witness :
    ((runProcess noPanicCfg 5 [[⟨Msg.pill true true, none⟩]]).cleanedUp = true) ∧
    ((runProcess noPanicCfg 5 [[⟨Msg.pill true true, none⟩]]).inboxOn = false) ∧
    ((runProcess noPanicCfg 5 [[⟨Msg.pill true true, none⟩]]).revived = false) ∧
    lifecycleOrdered (genDs 1
      (runProcess noPanicCfg 5 [[⟨Msg.pill true true, none⟩]]).trace) = true ∧
    endsStopped (genDs 1
      (runProcess noPanicCfg 5 [[⟨Msg.pill true true, none⟩]]).trace) = true := by
  have h := lifecycle_order noPanicCfg 5 [[⟨Msg.pill true true, none⟩]] 1
  exact ⟨by decide, by decide, by decide, h.2.1 (by decide),
    h.2.2.2 (by decide) (by decide) (by decide) (by decide)⟩

/-! ### C8: which deliveries flow through middleware -/

/-- Counterexample to claim C8: with middleware configured, the best-effort
`Stopped` delivered by `Invoke`'s recover handler calls
`p.context.receiver.Receive` directly, bypassing the middleware chain: the
trace of a panicking run contains a delivery with `mw = false`. -/
theorem middleware_bypass_cex :
    panicOnU1Cfg.hasMw = true ∧
    ((runProcess panicOnU1Cfg 10 [[uEnv 1]]).trace.any (fun d => !d.mw)) = true ∧
    ((runProcess panicOnU1Cfg 10 [[uEnv 1]]).trace.all (fun d => d.mw)) = false := by
  exact ⟨rfl, by decide, by decide⟩

/-- Claim C8 amended: when middleware is configured, every delivery to the
receiver flows through the middleware chain except the best-effort `Stopped`
deliveries performed by the recover handlers of `Invoke` and `Start`, which
invoke the receiver directly; equivalently, every trace entry either went
through middleware or is a lifecycle `Stopped`. -/
theorem middleware_except_recovery (cfg : Cfg) (fuel : Nat)
    (batches : List (List Envelope)) (hMw : cfg.hasMw = true) :
    ((runProcess cfg fuel batches).trace.all
      (fun d => d.mw || (decide (d.msg = Msg.stopped) && !d.env))) = true := by
  have h := runProcess_inv cfg fuel batches
  rw [List.all_eq_true]
  intro d hd
  by_cases hm : d.mw = true
  · simp [hm]
  · have hm' : d.mw = false := by simpa using hm
    have hms := h.tr.mwStopped hMw d hd hm'
    simp [hm', hms.1, hms.2]

/-- Witness for the amended C8 theorem at a concrete input. -/
theorem middleware_except_recovery_witness :
    noPanicCfg.hasMw = true ∧
    ((runProcess noPanicCfg 5 [[uEnv 1]]).trace.all
      (fun d => d.mw || (decide (d.msg = Msg.stopped) && !d.env))) = true :=
  ⟨rfl, middleware_except_recovery noPanicCfg 5 [[uEnv 1]] rfl⟩

/-! ### C9: poison pills are never delivered -/

/-- Claim C9: a poison pill is never delivered to the user receiver:
`invokeMsg` returns without invoking `Receive` whenever the envelope's
message is a poison pill, and consequently no delivery in the trace of any
run carries a pill, whether the pill occurred in the remainder of a
graceful-poison batch or was replayed from `mbuffer`. -/
theorem pill_never_delivered :
    (∀ (cfg : Cfg) (st : ProcState) (g w : Bool) (s : Option Nat),
      invokeMsg cfg st ⟨Msg.pill g w, s⟩ = .ok st) ∧
    (∀ (cfg : Cfg) (fuel : Nat) (batches : List (List Envelope)),
      ((runProcess cfg fuel batches).trace.all (fun d => !d.msg.isPill)) = true) := by
  refine ⟨fun _ _ _ _ _ => rfl, ?_⟩
  intro cfg fuel batches
  have h := runProcess_inv cfg fuel batches
  rw [List.all_eq_true]
  intro d hd
  have hp := h.tr.noPill d hd
  simp [hp]

/-- Witness for the amended C4 theorem at a concrete input: after the
generation-1 panic on `user 2`, the restart consumed the buffer and the
counter moved to 1. -/
theorem invoke_panic_buffers_after_witness :
    (¬ gen1State.restarts = panicOnU2Cfg.maxRestarts) ∧
    (exec panicOnU2Cfg (0 + 4) (Call.invoke ([uEnv 1] ++ uEnv 2 :: [uEnv 3]))
      gen1State).restarts = 1 ∧
    (exec panicOnU2Cfg (0 + 4) (Call.invoke ([uEnv 1] ++ uEnv 2 :: [uEnv 3]))
      gen1State).mbuffer = [] := by
  have h := invoke_panic_buffers_after panicOnU2Cfg 0 0 gen1State [uEnv 1] [uEnv 3]
    (uEnv 2) (by decide) (by decide) (by decide) (by decide) (by decide) (by decide)
    (by decide)
  refine ⟨by decide, ?_, ?_⟩
  · rw [h]
    try decide
  · rw [h]
    try decide

end GoActors
